import Mathlib

/-!
Formal model of the EazZy-Shop scraper core (`src/scraper.py`).

Pure string and numeric logic (price normalization, bot-block detection,
specification normalization, redirect-parameter resolution, the comparison
and prediction builders, and the control flow of `analyze_url`,
`resolve_url`, `scrape_amazon` and `scrape_flipkart`) is translated
directly from the source.  Network fetches and DOM selector queries are
abstracted as oracle inputs: an oracle supplies exactly the raw candidate
strings that the Python code would read out of an HTTP response or a
BeautifulSoup selector hit, and the model performs all subsequent
processing on them just as the source does.

Strings are modelled as Lean `String`s processed as `List Char`; Python's
unicode-aware `str.lower`, `str.strip` and the regex class `\d` are
modelled by Lean's ASCII `Char.toLower`, `Char.isWhitespace` stripping and
the explicit digit list `isDigitC` (the claims under study only exercise
ASCII data).  Python floats are modelled as
rationals; `round(x, 2)` is modelled as exact half-even rounding to two
decimals, which agrees with Python on the inputs appearing in the
theorems below.
-/

namespace EZShop

/-! ## Generic character-list helpers -/

/-- `hasPre n h` — `n` is a literal prefix of `h` (chars compared exactly). -/
def hasPre : List Char → List Char → Bool
  | [], _ => true
  | _ :: _, [] => false
  | a :: xs, b :: ys => a = b && hasPre xs ys

/-- Python `needle in haystack` substring test, on char lists. -/
def containsSubL (n : List Char) : List Char → Bool
  | [] => n.isEmpty
  | c :: rest => hasPre n (c :: rest) || containsSubL n rest

/-- Python `needle in haystack` substring test on strings. -/
def containsSub (n h : String) : Bool :=
  containsSubL n.toList h.toList

/-- Python `str.lower` (ASCII model). -/
def pyLower (s : String) : String :=
  (s.toList.map Char.toLower).asString

/-- Drop chars satisfying `p` from the right end of a list. -/
def rstripBy (p : Char → Bool) (l : List Char) : List Char :=
  (l.reverse.dropWhile p).reverse

/-- Drop chars satisfying `p` from both ends of a list. -/
def stripBy (p : Char → Bool) (l : List Char) : List Char :=
  rstripBy p (l.dropWhile p)

/-- Python `str.strip()` with no argument (whitespace strip, ASCII model). -/
def pyStrip (s : String) : String :=
  (stripBy Char.isWhitespace s.toList).asString

/-- Python `str.startswith` on strings. -/
def pyStartsWith (s pre : String) : Bool :=
  hasPre pre.toList s.toList

/-- The regex class `\d` (ASCII model). -/
def isDigitC (c : Char) : Bool :=
  ['0', '1', '2', '3', '4', '5', '6', '7', '8', '9'].contains c

/-! ## Bot-block detection (`_blocked`, src/scraper.py lines 324–328) -/

/-- The fixed block-page phrase set of `_blocked`. -/
def BLOCK_SIGNALS : List String :=
  ["robot check", "captcha", "are you a robot",
   "enter the characters", "verify you are human"]

/-- `_blocked(html)`: any block phrase occurs in the lowered body AND the
body is shorter than 20000 characters. -/
def pyBlocked (html : String) : Bool :=
  (BLOCK_SIGNALS.any (fun s => containsSub s (pyLower html))) && html.length < 20000

/-! ## Price normalization (`_price`, src/scraper.py lines 270–280) -/

/-- Case-insensitive char match against an uppercase pattern char `t`
(non-letters such as `'.'` compare exactly, like in the `(?i)` regex). -/
def ciEq (b t : Char) : Bool :=
  b = t || (t.isUpper && b.toNat = t.toNat + 32)

/-- Case-insensitive literal-token prefix test: `tokAt t s` holds when the
head of `s` spells `t` up to ASCII case (`t` is given uppercase). -/
def tokAt : List Char → List Char → Bool
  | [], _ => true
  | _ :: _, [] => false
  | a :: xs, b :: ys => ciEq b a && tokAt xs ys

/-- The substitution `re.sub(r'(?i)(INR|MRP|RS\.?|USD)', '', t)`: scan left
to right, at each position try the alternatives in order and delete the
first (greedy for `RS.` over `RS`), otherwise keep the char.  The
alternatives have pairwise distinct first letters, so the head char picks
the only alternative that can match. -/
def removeTokensGo : ℕ → List Char → List Char
  | 0, l => l
  | _, [] => []
  | fuel + 1, c :: cs =>
    if ciEq c 'I' then
      match cs with
      | n :: r :: rest =>
        if ciEq n 'N' && ciEq r 'R' then removeTokensGo fuel rest
        else c :: removeTokensGo fuel cs
      | _ => c :: removeTokensGo fuel cs
    else if ciEq c 'M' then
      match cs with
      | x :: y :: rest =>
        if ciEq x 'R' && ciEq y 'P' then removeTokensGo fuel rest
        else c :: removeTokensGo fuel cs
      | _ => c :: removeTokensGo fuel cs
    else if ciEq c 'R' then
      match cs with
      | s :: rest =>
        if ciEq s 'S' then
          match rest with
          | d :: rest2 =>
            if d = '.' then removeTokensGo fuel rest2 else removeTokensGo fuel rest
          | [] => removeTokensGo fuel rest
        else c :: removeTokensGo fuel cs
      | [] => c :: removeTokensGo fuel cs
    else if ciEq c 'U' then
      match cs with
      | x :: y :: rest =>
        if ciEq x 'S' && ciEq y 'D' then removeTokensGo fuel rest
        else c :: removeTokensGo fuel cs
      | _ => c :: removeTokensGo fuel cs
    else c :: removeTokensGo fuel cs

/-- `removeTokens` with the fuel instantiated to the list length (a step
always consumes at least one char, so this fuel is never exhausted). -/
def removeTokens (l : List Char) : List Char :=
  removeTokensGo l.length l

/-- The char class `[,\xa0₹\$£€]` removed by the first `re.sub`. -/
def isStrippedPriceChar (c : Char) : Bool :=
  [',', '\xA0', '₹', '$', '£', '€'].contains c

/-- One attempt of `\d{2,7}(?:\.\d{1,2})?` anchored at the head of `s`:
greedily take 2–7 digits, then optionally `.` plus 1–2 digits.  Returns
`(integer digits, fraction digits)`. -/
def matchNumAt (s : List Char) : Option (List Char × List Char) :=
  let digs := s.takeWhile isDigitC
  if digs.length < 2 then none
  else
    let ds := digs.take 7
    match s.drop ds.length with
    | '.' :: r2 =>
      let fd := (r2.takeWhile isDigitC).take 2
      if fd.isEmpty then some (ds, []) else some (ds, fd)
    | _ => some (ds, [])

/-- `re.search` for the number shape: leftmost match wins. -/
def findNum : List Char → Option (List Char × List Char)
  | [] => none
  | c :: cs =>
    match matchNumAt (c :: cs) with
    | some t => some t
    | none => findNum cs

/-- Decimal value of a digit list (most significant first). -/
def parseNatL (ds : List Char) : ℕ :=
  ds.foldl (fun a c => 10 * a + (c.toNat - 48)) 0

/-- Value of `float("<ds>.<fd>")` as a rational. -/
def parseDecL (ds fd : List Char) : ℚ :=
  (parseNatL ds : ℚ) + (parseNatL fd : ℚ) / ((10 : ℚ) ^ fd.length)

/-- The preprocessing pipeline of `_price`: strip currency chars, delete
currency tokens, strip whitespace. -/
def priceCleanL (s : List Char) : List Char :=
  stripBy Char.isWhitespace (removeTokens (s.filter (fun c => !isStrippedPriceChar c)))

/-- `_price(text)` on char lists: preprocess, extract the first
`\d{2,7}(\.\d{1,2})?` token and accept it only inside the open interval
(10, 10_000_000). -/
def pyPriceL (s : List Char) : Option ℚ :=
  match findNum (priceCleanL s) with
  | none => none
  | some (ds, fd) =>
    if 10 < parseDecL ds fd ∧ parseDecL ds fd < 10000000 then some (parseDecL ds fd)
    else none

/-- `_price` on strings. -/
def pyPrice (s : String) : Option ℚ :=
  pyPriceL s.toList

/-! ## Python float printing, for the idempotence claim

`_price` only returns values `v` with `100 * v` integral and
`10 < v < 10^7`; for such `v`, `str(float)` prints the minimal decimal form
(`"980.0"`, `"10.5"`, `"10.89"`).  `pyFloatStr` reproduces that form. -/

/-- Decimal digits of `n` (most significant first), prepended to `acc`. -/
def natToDigitsAux : ℕ → List Char → List Char
  | 0, acc => acc
  | n + 1, acc =>
    natToDigitsAux ((n + 1) / 10) (Nat.digitChar ((n + 1) % 10) :: acc)
  termination_by n _ => n
  decreasing_by
    have h : (n + 1) / 10 < n + 1 := Nat.div_lt_self (Nat.succ_pos n) (by norm_num)
    omega

/-- Decimal digit string of a natural number. -/
def natToDigits (n : ℕ) : List Char :=
  if n = 0 then ['0'] else natToDigitsAux n []

/-- `str(float(v))` for `v ≥ 0` with `100 * v` integral: minimal decimal
form, with a trailing `.0` for integers (Python prints `980.0`). -/
def pyFloatStr (v : ℚ) : String :=
  let m : ℤ := (100 * v).floor
  let n : ℕ := m.toNat
  let ip := natToDigits (n / 100)
  (if n % 100 = 0 then ip ++ ['.', '0']
   else if n % 10 = 0 then ip ++ ['.', Nat.digitChar ((n / 10) % 10)]
   else ip ++ ['.', Nat.digitChar ((n / 10) % 10), Nat.digitChar (n % 10)]).asString

/-! ## Image normalization (`_norm_img`, src/scraper.py lines 282–286) -/

/-- `_norm_img(url)`: falsy → absent; strip; rewrite protocol-relative
`//…` to `https://…`; keep only candidates that then start with `http`. -/
def normImg (u : Option String) : Option String :=
  match u with
  | none => none
  | some s0 =>
    if s0 = "" then none
    else
      let s := pyStrip s0
      let s1 := if pyStartsWith s "//" then "https:" ++ s else s
      if pyStartsWith s1 "http" then some s1 else none

/-! ## Specification normalization (src/scraper.py lines 426–466) -/

/-- Cap on normalized specification entries (`SPEC_MAX_ITEMS`). -/
def SPEC_MAX_ITEMS : ℕ := 36

/-- The noise-key set `SPEC_NOISE_KEYS` (folded keys that are dropped). -/
def SPEC_NOISE_KEYS : List String :=
  ["", "asin", "manufacturer", "customerreviews", "customerrating", "reviews",
   "ratings", "bestsellersrank", "datefirstavailable", "sellers", "seller",
   "returnpolicy", "delivery", "offers", "warranty", "services", "producturl",
   "url", "image", "sku", "modelnumber", "itemmodelnumber"]

/-- The "unavailable" value token set of `_normalize_specs`. -/
def UNAVAILABLE_VALUES : List String :=
  ["na", "n/a", "not available", "none", "-", "--"]

/-- Bidi control characters removed by `_clean_spec_text`
(`[‎‏‪-‮]`). -/
def isBidiControl (c : Char) : Bool :=
  c = '‎' || c = '‏' || ('‪' ≤ c && c ≤ '‮')

/-- Collapse maximal whitespace runs to a single space
(`re.sub(r"\s+", " ", txt)`); the flag records being inside a run. -/
def collapseWsF : Bool → List Char → List Char
  | _, [] => []
  | inRun, c :: cs =>
    if c.isWhitespace then
      if inRun then collapseWsF true cs else ' ' :: collapseWsF true cs
    else c :: collapseWsF false cs

/-- `re.sub(r"\s+", " ", txt)`. -/
def collapseWs (l : List Char) : List Char :=
  collapseWsF false l

/-- `_clean_spec_text` (lines 435–441): NBSP → space, drop bidi controls,
collapse whitespace, strip, strip `':'`/`' '` from the ends, strip again. -/
def cleanSpecText (s : String) : String :=
  let t1 := s.toList.map (fun c => if c = '\xA0' then ' ' else c)
  let t2 := t1.filter (fun c => !isBidiControl c)
  let t3 := stripBy Char.isWhitespace (collapseWs t2)
  (stripBy Char.isWhitespace (stripBy (fun c => c = ':' || c = ' ') t3)).asString

/-- Key folding for de-duplication (line 452): lower-case, keep `[a-z0-9]`. -/
def keyFold (s : String) : String :=
  ((s.toList.map Char.toLower).filter
    (fun c => ('a' ≤ c && c ≤ 'z') || ('0' ≤ c && c ≤ '9'))).asString

/-- Overlong-value truncation (line 461): `val[:257].rstrip() + "..."`. -/
def truncVal (v : String) : String :=
  (rstripBy Char.isWhitespace (v.toList.take 257)).asString ++ "..."

/-- Loop body of `_normalize_specs` (lines 444–466); `room` is the number
of entries that may still be added before the 36-entry break fires. -/
def normalizeSpecsAux : List (String × String) → List String → ℕ → List (String × String)
  | [], _, _ => []
  | (rk, rv) :: rest, seen, room =>
    let key := cleanSpecText rk
    let val := cleanSpecText rv
    if key = "" ∨ val = "" then normalizeSpecsAux rest seen room
    else
      let kn := keyFold key
      if kn = "" ∨ kn ∈ SPEC_NOISE_KEYS ∨ kn ∈ seen then normalizeSpecsAux rest seen room
      else if pyLower val ∈ UNAVAILABLE_VALUES then normalizeSpecsAux rest seen room
      else if 80 < key.length then normalizeSpecsAux rest seen room
      else
        (key, if 260 < val.length then truncVal val else val) ::
          (if room ≤ 1 then [] else normalizeSpecsAux rest (kn :: seen) (room - 1))

/-- `_normalize_specs(pairs)` as an insertion-ordered association list
(the Python dict never overwrites: a repeated folded key is skipped). -/
def normalizeSpecs (pairs : List (String × String)) : List (String × String) :=
  normalizeSpecsAux pairs [] SPEC_MAX_ITEMS

/-- The per-pair cleaning `_normalize_specs` applies before filtering:
cleaned key, cleaned and possibly truncated value.  Every output entry of
`normalizeSpecs` is one of these, in input order. -/
def specProcessed (kv : String × String) : String × String :=
  (cleanSpecText kv.1,
   if 260 < (cleanSpecText kv.2).length then truncVal (cleanSpecText kv.2)
   else cleanSpecText kv.2)

/-! ## URL splitting (model of `urllib.parse.urlsplit`) -/

/-- Characters allowed in a URL scheme. -/
def isSchemeChar (c : Char) : Bool :=
  c.isAlphanum || c = '+' || c = '-' || c = '.'

/-- Remove a leading `scheme:` when present (CPython `urlsplit`). -/
def dropScheme (l : List Char) : List Char :=
  let pre := l.takeWhile (fun c => c ≠ ':')
  if pre.length < l.length && 0 < pre.length && pre.all isSchemeChar then
    l.drop (pre.length + 1)
  else l

/-- The exception model: `urlparse` raises `ValueError` on a netloc with
mismatched IPv6 brackets. -/
inductive PyExc
  | valueError
deriving DecidableEq

/-- `urlsplit(url)` reduced to `(netloc, query)`: strip unsafe bytes, strip
the scheme, split the netloc after `//`, raise on mismatched brackets,
drop the fragment, take everything after the first `?` as the query. -/
def pyUrlsplit (url : String) : Except PyExc (String × String) :=
  let u0 := url.toList.filter (fun c => c ≠ '\t' && c ≠ '\r' && c ≠ '\n')
  let u1 := dropScheme u0
  let hasNL : Bool := hasPre ['/', '/'] u1
  let netloc := if hasNL then (u1.drop 2).takeWhile (fun c => c ≠ '/' && c ≠ '?' && c ≠ '#') else []
  let rest := if hasNL then (u1.drop 2).dropWhile (fun c => c ≠ '/' && c ≠ '?' && c ≠ '#') else u1
  if (netloc.contains '[' && !netloc.contains ']') ||
     (netloc.contains ']' && !netloc.contains '[') then
    .error .valueError
  else
    let beforeFrag := rest.takeWhile (fun c => c ≠ '#')
    let query := (beforeFrag.dropWhile (fun c => c ≠ '?')).drop 1
    .ok (netloc.asString, query.asString)

/-- Total netloc accessor (callers that reach it always parsed before). -/
def pyNetloc (url : String) : String :=
  match pyUrlsplit url with
  | .ok (n, _) => n
  | .error _ => ""

/-- Total query accessor (used inside `try` blocks in the source). -/
def pyQueryStr (url : String) : String :=
  match pyUrlsplit url with
  | .ok (_, q) => q
  | .error _ => ""

/-- Python `s.lstrip("www.")`: drops leading chars from the SET {w, .}. -/
def lstripWwwDot (s : String) : String :=
  (s.toList.dropWhile (fun c => c = 'w' || c = '.')).asString

/-- `SHORT_HOSTS` (lines 184–188). -/
def SHORT_HOSTS : List String :=
  ["amzn.in", "amzn.to", "amzn.eu", "a.co",
   "fkrt.cc", "fkrt.it", "fkrt.to", "dl.flipkart.com",
   "bit.ly", "t.co", "ow.ly", "goo.gl", "tinyurl.com"]

/-- The Flipkart short-link host set (lines 779, 942). -/
def FK_SHORT_HOSTS : List String :=
  ["dl.flipkart.com", "fkrt.cc", "fkrt.it", "fkrt.to"]

/-! ## Percent decoding and query parsing -/

/-- Hex digit value. -/
def hexDigitVal (c : Char) : Option ℕ :=
  if '0' ≤ c && c ≤ '9' then some (c.toNat - 48)
  else if 'A' ≤ c && c ≤ 'F' then some (c.toNat - 55)
  else if 'a' ≤ c && c ≤ 'f' then some (c.toNat - 87)
  else none

/-- `urllib.parse.unquote`, byte-level model: each valid `%XX` becomes the
char of that byte value (multi-byte UTF-8 runs are kept byte-per-char);
invalid escapes stay literal and scanning resumes right after the `%`. -/
def pyUnquoteGo : ℕ → List Char → List Char
  | 0, l => l
  | _, [] => []
  | fuel + 1, c :: rest =>
    if c = '%' then
      match rest with
      | a :: b :: rest2 =>
        match hexDigitVal a, hexDigitVal b with
        | some ha, some hb => Char.ofNat (16 * ha + hb) :: pyUnquoteGo fuel rest2
        | _, _ => '%' :: pyUnquoteGo fuel rest
      | _ => '%' :: pyUnquoteGo fuel rest
    else c :: pyUnquoteGo fuel rest

/-- `pyUnquote` with the fuel instantiated to the list length. -/
def pyUnquoteL (l : List Char) : List Char :=
  pyUnquoteGo l.length l

/-- `unquote` on strings. -/
def pyUnquote (s : String) : String :=
  (pyUnquoteL s.toList).asString

/-- Python `str.split(sep)` semantics on char lists. -/
def splitOnChar (sep : Char) : List Char → List (List Char)
  | [] => [[]]
  | c :: rest =>
    if c = sep then [] :: splitOnChar sep rest
    else
      match splitOnChar sep rest with
      | [] => [[c]]
      | g :: gs => (c :: g) :: gs

/-- Decode one query token as `parse_qsl` does: `+` → space, then
percent-decode. -/
def qsDecode (l : List Char) : String :=
  (pyUnquoteL (l.map (fun c => if c = '+' then ' ' else c))).asString

/-- `urllib.parse.parse_qsl(qs)` with default options: split on `&`, drop
empty fields, drop fields without `=` or with an empty raw value, decode
names and values. -/
def parseQsl (qs : String) : List (String × String) :=
  (splitOnChar '&' qs.toList).filterMap (fun field =>
    if field.isEmpty then none
    else
      let name := field.takeWhile (fun c => c ≠ '=')
      if name.length = field.length then none
      else
        let value := field.drop (name.length + 1)
        if value.isEmpty then none
        else some (qsDecode name, qsDecode value))

/-- `parse_qs(qs)[k][0]`: first value for key `k`, when the key occurs. -/
def qsFirst (prs : List (String × String)) (k : String) : Option String :=
  ((prs.filter (fun p => p.1 = k)).head?).map Prod.snd

/-! ## `resolve_url` (src/scraper.py lines 194–263) -/

/-- The redirect-parameter keys probed in order (line 200). -/
def RESOLVE_KEYS : List String := ["url", "u", "redirect", "redirect_url", "target"]

/-- The marketplace-host test of the redirect-parameter step (line 203). -/
def hasMarketHost (c : String) : Bool :=
  containsSub "amazon.in" c || containsSub "amazon.com" c || containsSub "flipkart.com" c

/-- The redirect-query step of `resolve_url` (lines 197–207): for each key
in order, if it is present and its first parsed value, percent-decoded a
second time, contains a marketplace host, return that decoded value.  The
step sits inside `try/except`, so a URL-split error yields `none`. -/
def resolveQuery (url : String) : Option String :=
  match pyUrlsplit url with
  | .error _ => none
  | .ok (_, q) =>
    let prs := parseQsl q
    (RESOLVE_KEYS.filterMap (fun k =>
      match qsFirst prs k with
      | none => none
      | some v =>
        let c := pyUnquote v
        if hasMarketHost c then some c else none)).head?

/-- One header-profile response, as far as `resolve_url` reads it: the
final URL after redirects (`""` models falsy), the `Location` header, and
the product URL `_extract_product_url_from_text` finds in the body. -/
structure RNetResp where
  finalUrl : String
  location : String
  bodyExtract : Option String

/-- The ScraperAPI fallback response, as far as `resolve_url` reads it:
the og:url/canonical contents present, in order, and the body extract. -/
structure RMetaResp where
  metaCands : List String
  bodyExtract : Option String

/-- Network oracle for `resolve_url`: the three header-profile attempts
(`none` = the GET raised), the ScraperAPI response, and `urljoin`. -/
structure ResolveNet where
  profile1 : Option RNetResp
  profile2 : Option RNetResp
  profile3 : Option RNetResp
  api : Option RMetaResp
  urljoin : String → String → String

/-- One profile iteration of `resolve_url` (lines 219–240). -/
def resolveProfileStep (net : ResolveNet) (url : String) (r : RNetResp) : Option String :=
  let finalU := if r.finalUrl = "" then url else r.finalUrl
  if (containsSub "amazon.in" finalU || containsSub "flipkart.com" finalU) && finalU ≠ url then
    some finalU
  else
    let viaLoc :=
      if r.location = "" then none
      else
        let c := net.urljoin url r.location
        if containsSub "amazon.in" c || containsSub "amazon.com" c || containsSub "flipkart.com" c
        then some c else none
    match viaLoc with
    | some c => some c
    | none => r.bodyExtract

/-- `resolve_url(url, fast)` (lines 194–263): redirect-parameter step,
then the header profiles (two in fast mode), then the ScraperAPI
meta/body fallback, else the original URL. -/
def resolveUrl (net : ResolveNet) (fast : Bool) (url : String) : String :=
  match resolveQuery url with
  | some c => c
  | none =>
    let profs := if fast then [net.profile1, net.profile2]
                 else [net.profile1, net.profile2, net.profile3]
    match (profs.filterMap (fun pr => pr.bind (resolveProfileStep net url))).head? with
    | some c => c
    | none =>
      match net.api with
      | none => url
      | some m =>
        match (m.metaCands.filter (fun c =>
            containsSub "amazon.in" c || containsSub "flipkart.com" c)).head? with
        | some c => c
        | none =>
          match m.bodyExtract with
          | some c => c
          | none => url

/-! ## Product records and the platform scrapers

Fetch results and DOM selector hits are supplied by oracles: each oracle
field carries exactly the candidate strings the corresponding selector
loop, regex scan or JSON walk in the source would produce, and the model
performs all subsequent filtering/normalization as the source does. -/

/-- The per-platform record dict produced by the scrapers. -/
structure ProductRecord where
  platform : String
  title : Option String
  price : Option ℚ
  image_url : Option String
  url : String
  availability : String
  specs : List (String × String)
deriving DecidableEq

/-- First selector text longer than 3 chars (`if t and len(t) > 3`). -/
def firstTitle (cands : List String) : Option String :=
  (cands.filter (fun t => 3 < t.length)).head?

/-- First candidate whose `_price` is truthy — the shape shared by the
selector price loops, `_extract_price_from_scripts`, the JSON-LD offers
walk and `_extract_flipkart_pid_price`. -/
def firstPrice (cands : List String) : Option ℚ :=
  (cands.filterMap pyPrice).head?

/-- `_extract_image_from_scripts` (lines 351–366): first capture accepted
by `_norm_img` (the raw capture is returned, not its normalized form). -/
def firstScriptImg (cands : List String) : Option String :=
  (cands.filter (fun u => (normImg (some u)).isSome)).head?

/-- Oracle view of a ScraperAPI structured payload: the exact (already
`str()`-ified) strings `_parse_amazon_structured` reads. -/
structure AmazonStruct where
  title : Option String
  priceCands : List String
  pricingCands : List String
  imgCand : Option String
  url : String
  availability : String
  specPairs : List (String × String)

/-- `_parse_amazon_structured` (lines 637–671). -/
def parseAmazonStructured (d : AmazonStruct) : Option ProductRecord :=
  let price := firstPrice d.priceCands <|> firstPrice d.pricingCands
  let img := normImg d.imgCand
  if d.title.isNone && price.isNone && img.isNone then none
  else some ⟨"Amazon", d.title, price, img, d.url, d.availability,
             normalizeSpecs d.specPairs⟩

/-- Oracle view of a fetched Amazon HTML page: `raw` is the response text
(fed to `_blocked`), the other fields are the candidate strings of the
title/price/image selector loops (in selector order), the script regex
captures, the JSON-LD walk and the og/twitter meta tags.  `Option`-valued
fields use `none` for Python-falsy results; `imgLoopRes` is the candidate
the `AMZN_IMG_SELS` loop of lines 719–729 settles on. -/
structure AmazonHtml where
  raw : String
  titleCands : List String
  priceCands : List String
  scriptPriceCands : List String
  imgLoopRes : Option String
  scriptImgCands : List String
  ldTitle : Option String
  ldPriceCands : List String
  ldImg : Option String
  ogTitle : Option String
  ogPriceRaw : Option String
  ogImg : Option String
  availCand : Option String
  specPairs : List (String × String)

/-- HTML part of `scrape_amazon` (lines 695–751) on a usable page. -/
def amazonFromHtml (url : String) (pg : AmazonHtml) : Option ProductRecord :=
  let title := (firstTitle pg.titleCands <|> pg.ldTitle) <|> pg.ogTitle
  let price := ((firstPrice pg.priceCands <|> firstPrice pg.scriptPriceCands)
      <|> firstPrice pg.ldPriceCands) <|> pg.ogPriceRaw.bind pyPrice
  let img := normImg (((pg.imgLoopRes <|> firstScriptImg pg.scriptImgCands)
      <|> pg.ldImg) <|> pg.ogImg)
  let avail := match pg.availCand with
    | some a => a
    | none => "In Stock"
  if title.isNone && price.isNone && img.isNone then none
  else some ⟨"Amazon", title, price, img, url, avail, normalizeSpecs pg.specPairs⟩

/-- `not resp or _blocked(resp.text)` for Amazon responses. -/
def badA : Option AmazonHtml → Bool
  | none => true
  | some pg => pyBlocked pg.raw

/-- `scrape_amazon` (lines 673–751): structured endpoint first (used only
when it yields a title or price), then ScraperAPI HTML, then direct
fetch; blocked or missing responses fall through; total failure is
`none`. -/
def scrapeAmazon (url : String) (structResp : Option AmazonStruct)
    (apiResp directResp : Option AmazonHtml) : Option ProductRecord :=
  let viaStruct :=
    match structResp.bind parseAmazonStructured with
    | some r => if r.title.isSome || r.price.isSome then some r else none
    | none => none
  match viaStruct with
  | some r => some r
  | none =>
    let resp := if badA apiResp then directResp else apiResp
    if badA resp then none
    else
      match resp with
      | some pg => amazonFromHtml url pg
      | none => none

/-- Oracle view of a fetched Flipkart HTML page (same conventions as
`AmazonHtml`); `pidPriceCands` gives the pid-tied regex captures of
`_extract_flipkart_pid_price` as a function of the pid. -/
structure FkHtml where
  raw : String
  canonicalHref : Option String
  titleCands : List String
  priceCands : List String
  scriptPriceCands : List String
  pidPriceCands : String → List String
  imgSrcCands : List String
  scriptImgCands : List String
  ldTitle : Option String
  ldPriceCands : List String
  ldImg : Option String
  ogTitle : Option String
  ogPriceRaw : Option String
  ogImg : Option String
  specPairs : List (String × String)

/-- The fetch attempts `scrape_flipkart` can make for one URL. -/
structure FkFetches where
  race : Option FkHtml
  apiShort : Option FkHtml
  api : Option FkHtml
  direct : Option FkHtml
  render : Option FkHtml

/-- Oracle for `scrape_flipkart`: fetches per URL, the resolver seen by
the retry branch, `urljoin`, and whether an API key is configured. -/
structure FkOracle where
  fetch : String → FkFetches
  resolve : String → String
  urljoin : String → String → String
  hasApiKey : Bool

/-- `not resp or _blocked(resp.text)` for Flipkart responses. -/
def badF : Option FkHtml → Bool
  | none => true
  | some pg => pyBlocked pg.raw

/-- The `FK_IMG_SELS` loop (lines 837–843): first `src` starting with
`http`, cut at the first comma and at the first whitespace token. -/
def fkImgFromSels (cands : List String) : Option String :=
  ((cands.filter (fun s => pyStartsWith s "http")).head?).map (fun s =>
    (((s.toList.takeWhile (fun c => c ≠ ',')).dropWhile Char.isWhitespace).takeWhile
      (fun c => !c.isWhitespace)).asString)

/-- The pid-tied price preference (lines 832–834): `if pid_price and
(not price or (price < 1000 and pid_price >= 1000)): price = pid_price`. -/
def fkPricePrefer (pidPrice price0 : Option ℚ) : Option ℚ :=
  match pidPrice, price0 with
  | some pp, none => some pp
  | some pp, some pr => if pr < 1000 ∧ 1000 ≤ pp then some pp else some pr
  | none, pr => pr

/-- Extraction part of `scrape_flipkart` (lines 802–866) on a usable
page: canonical-URL rewrite, title/price/image extraction with the
pid-tied price preference, specs.  Returns the canonicalized URL and the
record (`none` = no title, no price, no image). -/
def fkExtract (O : FkOracle) (url : String) (pg : FkHtml) :
    String × Option ProductRecord :=
  let url1 := match pg.canonicalHref with
    | some h => O.urljoin url h
    | none => url
  let title := (firstTitle pg.titleCands <|> pg.ldTitle) <|> pg.ogTitle
  let price0 := firstPrice pg.priceCands <|> firstPrice pg.scriptPriceCands
  let pid := qsFirst (parseQsl (pyQueryStr url1)) "pid"
  let pidPrice := pid.bind (fun pv => firstPrice (pg.pidPriceCands pv))
  let price1 := fkPricePrefer pidPrice price0
  let price := (price1 <|> firstPrice pg.ldPriceCands) <|> pg.ogPriceRaw.bind pyPrice
  let img := normImg (((fkImgFromSels pg.imgSrcCands <|> firstScriptImg pg.scriptImgCands)
      <|> pg.ldImg) <|> pg.ogImg)
  if title.isNone && price.isNone && img.isNone then (url1, none)
  else (url1, some ⟨"Flipkart", title, price, img, url1, "In Stock",
                    normalizeSpecs pg.specPairs⟩)

/-- One invocation of `scrape_flipkart` (lines 775–866): the strategy
chain, the extraction, and the short-link retry of lines 857–863, with
the recursive re-invocation abstracted as `retry`. -/
def fkStep (O : FkOracle) (retry : String → Option (Option ProductRecord))
    (url : String) : Option (Option ProductRecord) :=
  let host := pyLower (pyNetloc url)
  let isShortFk := FK_SHORT_HOSTS.contains host
  let F := O.fetch url
  let r1 := if isShortFk then (if badF F.race then F.apiShort else F.race) else F.api
  let r2 := if badF r1 then F.direct else r1
  let r3 := if badF r2 && O.hasApiKey && !isShortFk then F.render else r2
  if badF r3 then some none
  else
    match r3 with
    | none => some none
    | some pg =>
      match fkExtract O url pg with
      | (_, some r) => some (some r)
      | (url1, none) =>
        if isShortFk then
          let resolved := O.resolve url1
          if resolved ≠ "" && resolved ≠ url1 then retry resolved
          else some none
        else some none

/-- `scrape_flipkart`, fuel-indexed to expose the recursion: the outer
`none` means the recursion exceeded the fuel, `some r` that the call
returned `r`. -/
def scrapeFlipkartFuel (O : FkOracle) : ℕ → String → Option (Option ProductRecord)
  | 0, _ => none
  | fuel + 1, url => fkStep O (scrapeFlipkartFuel O fuel) url

/-! ## Comparison and prediction (src/scraper.py lines 1004–1062) -/

/-- The comparison dict of the analysis result. -/
structure ComparisonResult where
  cheapest_platform : Option String
  cheapest_price : Option ℚ
  price_difference : Option ℚ
  both_found : Bool
deriving DecidableEq

/-- Truthy prices of the per-platform records
(`[v.get("price") for v in results.values() if v.get("price")]`). -/
def truthyPrices (rs : List (String × Option ℚ)) : List ℚ :=
  rs.filterMap (fun x => x.2.bind (fun v => if v = 0 then none else some v))

/-- One step of the cheapest-platform loop (lines 1007–1009): `if p and
p < cheapest_price` (the starting +inf is modelled as `none`). -/
def cfStep (acc : Option String × Option ℚ) (x : String × Option ℚ) :
    Option String × Option ℚ :=
  match x.2 with
  | none => acc
  | some p =>
    if p = 0 then acc
    else
      match acc.2 with
      | none => (some x.1, some p)
      | some c => if p < c then (some x.1, some p) else acc

/-- The cheapest-platform fold over the records in insertion order. -/
def cheapestFold (rs : List (String × Option ℚ)) : Option String × Option ℚ :=
  rs.foldl cfStep (none, none)

/-- The comparison built by `analyze_url` (lines 1004–1012, 1056–1062)
from the per-platform `(platform, price)` pairs in insertion order. -/
def buildComparison (rs : List (String × Option ℚ)) : ComparisonResult :=
  let ch := cheapestFold rs
  let ps := truthyPrices rs
  let diff := match ps with
    | [a, b] => some |a - b|
    | _ => none
  ⟨ch.1, ch.2, diff, rs.length == 2⟩

/-- Half-even integer rounding on ℚ (Python `round` tie behavior). -/
def rndHalfEven (q : ℚ) : ℤ :=
  let f := q.floor
  let r := q - f
  if r < 1/2 then f
  else if 1/2 < r then f + 1
  else if f % 2 = 0 then f else f + 1

/-- Python `round(x, 2)` on the rational model. -/
def round2 (q : ℚ) : ℚ :=
  (rndHalfEven (100 * q) : ℚ) / 100

/-- `min(future_prices.values())` for current price `p`: the minimum of
the five rounded projections, folded in dict order as Python's `min`. -/
def predMin (p : ℚ) : ℚ :=
  min (round2 (p * (98/100))) (min (round2 (p * (95/100)))
    (min (round2 (p * (92/100))) (min (round2 (p * (90/100))) (round2 (p * (88/100))))))

/-- The `future_prices` map, keyed 7/15/30/60/90 days. -/
structure FuturePrices where
  d7 : ℚ
  d15 : ℚ
  d30 : ℚ
  d60 : ℚ
  d90 : ℚ
deriving DecidableEq

/-- The prediction dict of the analysis result. -/
structure PredictionResult where
  future_prices : Option FuturePrices
  recommendation : String
  max_savings : Option ℚ
  best_time_days : Option ℕ
  confidence : ℚ
deriving DecidableEq

/-- The prediction block of `analyze_url` (lines 1017–1029, 1047–1052):
`current_price` is truthiness-tested; projections are
`round(p * factor, 2)` for the decay factors 0.98/0.95/0.92/0.90/0.88;
max savings is `round(p - min(projections), 2)`; `WAIT` iff
`max_savings / p > 0.05`, with `best_time_days = 90` exactly for `WAIT`;
confidence 0.85 when two platforms produced records, else 0.60. -/
def buildPrediction (cp : Option ℚ) (nResults : ℕ) : PredictionResult :=
  let conf : ℚ := if nResults = 2 then 85/100 else 60/100
  match cp with
  | none => ⟨none, "PRICE_UNAVAILABLE", none, none, conf⟩
  | some p =>
    if p = 0 then ⟨none, "PRICE_UNAVAILABLE", none, none, conf⟩
    else
      let f := FuturePrices.mk (round2 (p * (98/100))) (round2 (p * (95/100)))
        (round2 (p * (92/100))) (round2 (p * (90/100))) (round2 (p * (88/100)))
      let mn := min f.d7 (min f.d15 (min f.d30 (min f.d60 f.d90)))
      let ms := round2 (p - mn)
      let rcm := if 5/100 < ms / p then "WAIT" else "BUY_NOW"
      ⟨some f, rcm, some ms, if rcm = "WAIT" then some 90 else none, conf⟩

/-! ## `analyze_url` (src/scraper.py lines 932–1062) -/

/-- The analysis result dict.  The failure dicts of the source carry only
`success` and `error`; the other fields are `none`/empty there. -/
structure AnalysisResult where
  success : Bool
  error : Option String
  product_name : Option String
  source_platform : Option String
  source_url : Option String
  resolved_url : Option String
  platforms_found : List String
  current_price : Option ℚ
  image_url : Option String
  prediction : Option PredictionResult
  comparison : Option ComparisonResult
  amazonRec : Option ProductRecord
  flipkartRec : Option ProductRecord
deriving DecidableEq

/-- Oracle for `analyze_url`: the resolver, the two platform scrapers and
`_name_from_url` as total functions, plus the API-key flag.  (The real
`scrape_flipkart` can itself re-raise on a malformed resolved URL; the
total oracles do not model that secondary raise site.) -/
structure AnalyzeOracle where
  resolve : String → String
  scrapeAmazonO : String → Option ProductRecord
  scrapeFlipkartO : String → Option ProductRecord
  nameFromUrl : String → Option String
  hasApiKey : Bool

/-- A failure dict `{"success": False, "error": msg}`. -/
def errResult (msg : String) : AnalysisResult :=
  ⟨false, some msg, none, none, none, none, [], none, none, none, none, none, none⟩

/-- The post-platform-detection body of `analyze_url` (lines 962–1062). -/
def analyzeCore (O : AnalyzeOracle) (source raw url : String) : AnalysisResult :=
  let data := if source = "amazon" then O.scrapeAmazonO url else O.scrapeFlipkartO url
  let results0 : List (String × ProductRecord) :=
    match data with
    | some r => [(source, r)]
    | none => []
  let pname := match data.bind (fun r => r.title) with
    | some t => some t
    | none => O.nameFromUrl url
  if results0.isEmpty && pname.isNone then
    errResult ("Could not extract product details from this URL. (ScraperAPI key: " ++
      (if O.hasApiKey then "active" else "MISSING") ++
      "). Please try a full product URL, not a short link.")
  else
    let results :=
      if results0.isEmpty then
        [(source, (⟨if source = "amazon" then "Amazon" else "Flipkart", pname, none, none,
                    url, "Price could not be verified", []⟩ : ProductRecord))]
      else results0
    let comparison := buildComparison (results.map (fun x => (x.1, x.2.price)))
    let srcData :=
      match ((results.filter (fun x => x.1 = source)).head?).map Prod.snd with
      | some r => some r
      | none => (results.head?).map Prod.snd
    let currentPrice := srcData.bind (fun r => r.price)
    let pred := buildPrediction currentPrice results.length
    ⟨true, none, pname, some source, some raw, some url, results.map Prod.fst,
      currentPrice, srcData.bind (fun r => r.image_url), some pred, some comparison,
      ((results.filter (fun x => x.1 = "amazon")).head?).map Prod.snd,
      ((results.filter (fun x => x.1 = "flipkart")).head?).map Prod.snd⟩

/-- `analyze_url(raw_url)` (lines 932–1062): empty-URL check, the
unguarded `urlparse` of line 941 (the model's raise site), short-link
resolution, platform detection, then `analyzeCore`. -/
def analyzeUrl (O : AnalyzeOracle) (raw : String) : Except PyExc AnalysisResult :=
  let url0 := pyStrip raw
  if url0 = "" then .ok (errResult "URL is required")
  else
    match pyUrlsplit url0 with
    | .error e => .error e
    | .ok (netloc, _) =>
      let host := lstripWwwDot (pyLower netloc)
      let isFkShort := FK_SHORT_HOSTS.contains host
      let isShort := SHORT_HOSTS.contains host
      let url := if !isFkShort &&
          (isShort || (!containsSub "amazon.in" url0 && !containsSub "flipkart.com" url0))
        then O.resolve url0 else url0
      let url_l := pyLower url
      if containsSub "amazon.in" url_l || containsSub "amazon.com" url_l then
        .ok (analyzeCore O "amazon" raw url)
      else if containsSub "flipkart.com" url_l then
        .ok (analyzeCore O "flipkart" raw url)
      else
        .ok (errResult
          "Could not identify platform. Please paste a direct Amazon.in or Flipkart.com product URL.")

/-! ## Concrete fixtures for evaluations -/

/-- Inert analysis oracle: identity resolver, scrapers and name fallback
that find nothing. -/
def inertOracle : AnalyzeOracle :=
  ⟨fun u => u, fun _ => none, fun _ => none, fun _ => none, true⟩

/-- Resolver network oracle on which every attempt fails. -/
def netFail : ResolveNet :=
  ⟨none, none, none, none, fun _ h => h⟩

/-- Resolver network oracle whose first profile lands on a product URL. -/
def netHit : ResolveNet :=
  ⟨some ⟨"https://www.flipkart.com/x/p/y", "", none⟩, none, none, none, fun _ h => h⟩

/-- A fetched, unblocked Flipkart page with nothing extractable. -/
def emptyFkPage : FkHtml :=
  ⟨"", none, [], [], [], fun _ => [], [], [], none, [], none, none, none, none, []⟩

/-- Oracle describing a two-cycle of failing short links: both
`dl.flipkart.com` URLs fetch an empty page, and each resolves to the
other. -/
def fkCycleOracle : FkOracle :=
  ⟨fun _ => ⟨some emptyFkPage, none, none, none, none⟩,
   fun u => if u = "https://dl.flipkart.com/a" then "https://dl.flipkart.com/b"
            else "https://dl.flipkart.com/a",
   fun _ h => h, true⟩

/-- Oracle whose resolver always lands on a full product URL. -/
def fkResolveToFull : FkOracle :=
  ⟨fun _ => ⟨some emptyFkPage, none, none, none, none⟩,
   fun _ => "https://www.flipkart.com/x/p/y",
   fun _ h => h, true⟩

/-- A Flipkart page carrying a title, price, image and one spec row. -/
def fkRichPage : FkHtml :=
  ⟨"ok", none, ["Super Phone 5G"], ["₹12,999"], [], fun _ => [],
   ["https://img.fk/x.jpg 1x, https://img.fk/y.jpg 2x"], [], none, [],
   none, none, none, none, [("Color", "Blue")]⟩

/-- Oracle serving `fkRichPage` for every URL. -/
def fkRichOracle : FkOracle :=
  ⟨fun _ => ⟨none, none, some fkRichPage, none, none⟩, fun u => u, fun _ h => h, true⟩

/-- A structured Amazon payload with title, price and a
protocol-relative image. -/
def sdRich : AmazonStruct :=
  ⟨some "Widget Pro Max", ["₹1,299"], [], some "//img.example/x.jpg",
   "https://www.amazon.in/dp/X", "In Stock", []⟩

/-! ## Helper lemmas -/

theorem hasPre_map_of (f : Char → Char) :
    ∀ n h : List Char, hasPre n h = true → hasPre (n.map f) (h.map f) = true
  | [], _, _ => rfl
  | _ :: _, [], hp => by simp [hasPre] at hp
  | a :: xs, b :: ys, hp => by
    simp only [hasPre, Bool.and_eq_true, decide_eq_true_eq] at hp
    simp only [List.map_cons, hasPre, Bool.and_eq_true, decide_eq_true_eq]
    exact ⟨congrArg f hp.1, hasPre_map_of f xs ys hp.2⟩

theorem containsSubL_map_of (f : Char → Char) (n : List Char) :
    ∀ h : List Char, containsSubL n h = true → containsSubL (n.map f) (h.map f) = true
  | [], hh => by
    simp only [containsSubL, List.isEmpty_iff] at hh
    simp [containsSubL, hh]
  | c :: rest, hh => by
    simp only [containsSubL, Bool.or_eq_true] at hh
    simp only [List.map_cons, containsSubL, Bool.or_eq_true]
    rcases hh with hh | hh
    · exact Or.inl (by simpa using hasPre_map_of f n (c :: rest) hh)
    · exact Or.inr (containsSubL_map_of f n rest hh)

/-! ## C5: bot-block detection -/

/-- C5: `_blocked` returns true for every body shorter than the 20000-char
threshold that contains a block phrase (shown for "captcha", the claim's
example; containment of any lowercase phrase of the set lowers the same
way), and returns false for every body of at least 20000 chars even when a
block phrase occurs in it. -/
theorem c5_bot_block_detection (body : String) :
    (containsSub "captcha" body = true → body.length < 20000 → pyBlocked body = true) ∧
    (20000 ≤ body.length → pyBlocked body = false) := by
  constructor
  · intro hc hl
    have hlow : containsSub "captcha" (pyLower body) = true := by
      have hmap := containsSubL_map_of Char.toLower "captcha".toList body.toList hc
      have hfix : "captcha".toList.map Char.toLower = "captcha".toList := by decide
      simpa [containsSub, pyLower, hfix] using hmap
    simp [pyBlocked, BLOCK_SIGNALS, hl, hlow]
  · intro hl
    simp [pyBlocked]
    omega

/-- Witness for C5 at the concrete body "captcha". -/
theorem c5_bot_block_detection_witness : pyBlocked "captcha" = true :=
  (c5_bot_block_detection "captcha").1 (by decide) (by decide)

/-! ## C2: price prediction -/

theorem ratFloor_eq (q : ℚ) : q.floor = ⌊q⌋ := rfl

theorem rndHalfEven_eq_down (q : ℚ) (f : ℤ) (h1 : (f : ℚ) ≤ q) (h2 : q < (f : ℚ) + 1/2) :
    rndHalfEven q = f := by
  have hfl : q.floor = f := by
    rw [ratFloor_eq]
    refine Int.floor_eq_iff.mpr ⟨h1, ?_⟩
    linarith
  simp only [rndHalfEven, hfl]
  rw [if_pos (by linarith)]

theorem rndHalfEven_eq_up (q : ℚ) (f : ℤ) (h1 : (f : ℚ) + 1/2 < q) (h2 : q < (f : ℚ) + 1) :
    rndHalfEven q = f + 1 := by
  have hfl : q.floor = f := by
    rw [ratFloor_eq]
    refine Int.floor_eq_iff.mpr ⟨by linarith, ?_⟩
    linarith
  simp only [rndHalfEven, hfl]
  rw [if_neg (by linarith), if_pos (by linarith)]

theorem rndHalfEven_den_one {q : ℚ} (h : q.den = 1) : (rndHalfEven q : ℚ) = q := by
  have hnum : (q.num : ℚ) = q := Rat.coe_int_num_of_den_eq_one h
  have hf : q.floor = q.num := by
    rw [Rat.floor_def', h]
    exact Int.ediv_one q.num
  have hz : q - (q.num : ℚ) = 0 := by rw [hnum]; ring
  simp only [rndHalfEven, hf, hz]
  rw [if_pos (by norm_num)]
  exact hnum

theorem round2_of_den_one {q : ℚ} (h : (100 * q).den = 1) : round2 q = q := by
  unfold round2
  rw [rndHalfEven_den_one h]
  field_simp

theorem hundred_mul_round2_den (x : ℚ) : (100 * round2 x).den = 1 := by
  unfold round2
  have : (100 : ℚ) * ((rndHalfEven (100 * x) : ℚ) / 100) = (rndHalfEven (100 * x) : ℚ) := by
    field_simp
  rw [this, Rat.den_intCast]

theorem den_one_sub {a b : ℚ} (ha : a.den = 1) (hb : b.den = 1) : (a - b).den = 1 := by
  have ha' : (a.num : ℚ) = a := Rat.coe_int_num_of_den_eq_one ha
  have hb' : (b.num : ℚ) = b := Rat.coe_int_num_of_den_eq_one hb
  have : a - b = ((a.num - b.num : ℤ) : ℚ) := by
    push_cast
    rw [ha', hb']
  rw [this, Rat.den_intCast]

theorem hundred_mul_predMin_den (p : ℚ) : (100 * predMin p).den = 1 := by
  unfold predMin
  rcases min_cases (round2 (p * (98/100))) (min (round2 (p * (95/100)))
      (min (round2 (p * (92/100))) (min (round2 (p * (90/100))) (round2 (p * (88/100)))))) with
    ⟨h1, _⟩ | ⟨h1, _⟩ <;> rw [h1]
  · exact hundred_mul_round2_den _
  · rcases min_cases (round2 (p * (95/100)))
        (min (round2 (p * (92/100))) (min (round2 (p * (90/100))) (round2 (p * (88/100))))) with
      ⟨h2, _⟩ | ⟨h2, _⟩ <;> rw [h2]
    · exact hundred_mul_round2_den _
    · rcases min_cases (round2 (p * (92/100)))
          (min (round2 (p * (90/100))) (round2 (p * (88/100)))) with ⟨h3, _⟩ | ⟨h3, _⟩ <;> rw [h3]
      · exact hundred_mul_round2_den _
      · rcases min_cases (round2 (p * (90/100))) (round2 (p * (88/100))) with
          ⟨h4, _⟩ | ⟨h4, _⟩ <;> rw [h4]
        · exact hundred_mul_round2_den _
        · exact hundred_mul_round2_den _

theorem round2_intCast (z : ℤ) : round2 ((z : ℤ) : ℚ) = z := by
  refine round2_of_den_one ?_
  rw [show (100 : ℚ) * (z : ℚ) = ((100 * z : ℤ) : ℚ) by push_cast; ring, Rat.den_intCast]

/-- Evaluation of `buildPrediction` at the exact price 1000 (the spec's
worked example): projections [980, 950, 920, 900, 880], savings 120,
recommendation WAIT, best time 90 days. -/
theorem buildPrediction_at_1000 :
    buildPrediction (some 1000) 1 =
      ⟨some ⟨980, 950, 920, 900, 880⟩, "WAIT", some 120, some 90, 60/100⟩ := by
  have e7 : round2 ((1000 : ℚ) * (98/100)) = 980 := by
    rw [show ((1000 : ℚ) * (98/100)) = ((980 : ℤ) : ℚ) by norm_num, round2_intCast]
    norm_num
  have e15 : round2 ((1000 : ℚ) * (95/100)) = 950 := by
    rw [show ((1000 : ℚ) * (95/100)) = ((950 : ℤ) : ℚ) by norm_num, round2_intCast]
    norm_num
  have e30 : round2 ((1000 : ℚ) * (92/100)) = 920 := by
    rw [show ((1000 : ℚ) * (92/100)) = ((920 : ℤ) : ℚ) by norm_num, round2_intCast]
    norm_num
  have e60 : round2 ((1000 : ℚ) * (90/100)) = 900 := by
    rw [show ((1000 : ℚ) * (90/100)) = ((900 : ℤ) : ℚ) by norm_num, round2_intCast]
    norm_num
  have e90 : round2 ((1000 : ℚ) * (88/100)) = 880 := by
    rw [show ((1000 : ℚ) * (88/100)) = ((880 : ℤ) : ℚ) by norm_num, round2_intCast]
    norm_num
  have hmn : min (980 : ℚ) (min 950 (min 920 (min 900 880))) = 880 := by norm_num
  have ems : round2 ((1000 : ℚ) - 880) = 120 := by
    rw [show ((1000 : ℚ) - 880) = ((120 : ℤ) : ℚ) by norm_num, round2_intCast]
    norm_num
  simp only [buildPrediction]
  rw [if_neg (by norm_num : ¬ (1000 : ℚ) = 0)]
  simp only [e7, e15, e30, e60, e90, hmn, ems]
  rw [if_pos (by norm_num : (5 : ℚ)/100 < 120 / 1000)]
  rfl

/-- C2 counterexample: at current price 11.11 the 7-day projection the
code computes is the rounded value 10.89, which differs from the exact
scaling 11.11 × 0.98 = 10.8878 the claim states for every p > 0. -/
theorem c2_prediction_counterexample :
    (buildPrediction (some (1111/100)) 1).future_prices =
      some ⟨1089/100, 211/20, 511/50, 10, 489/50⟩ ∧
    (1089/100 : ℚ) ≠ (1111/100) * (98/100) := by
  have e7 : round2 ((1111/100 : ℚ) * (98/100)) = 1089/100 := by
    unfold round2
    rw [show (100 : ℚ) * ((1111/100) * (98/100)) = 54439/50 by norm_num,
        rndHalfEven_eq_up (54439/50) 1088 (by norm_num) (by norm_num)]
    norm_num
  have e15 : round2 ((1111/100 : ℚ) * (95/100)) = 211/20 := by
    unfold round2
    rw [show (100 : ℚ) * ((1111/100) * (95/100)) = 21109/20 by norm_num,
        rndHalfEven_eq_down (21109/20) 1055 (by norm_num) (by norm_num)]
    norm_num
  have e30 : round2 ((1111/100 : ℚ) * (92/100)) = 511/50 := by
    unfold round2
    rw [show (100 : ℚ) * ((1111/100) * (92/100)) = 25553/25 by norm_num,
        rndHalfEven_eq_down (25553/25) 1022 (by norm_num) (by norm_num)]
    norm_num
  have e60 : round2 ((1111/100 : ℚ) * (90/100)) = 10 := by
    unfold round2
    rw [show (100 : ℚ) * ((1111/100) * (90/100)) = 9999/10 by norm_num,
        rndHalfEven_eq_up (9999/10) 999 (by norm_num) (by norm_num)]
    norm_num
  have e90 : round2 ((1111/100 : ℚ) * (88/100)) = 489/50 := by
    unfold round2
    rw [show (100 : ℚ) * ((1111/100) * (88/100)) = 24442/25 by norm_num,
        rndHalfEven_eq_up (24442/25) 977 (by norm_num) (by norm_num)]
    norm_num
  constructor
  · simp only [buildPrediction]
    rw [if_neg (by norm_num : ¬ (1111/100 : ℚ) = 0)]
    simp only [e7, e15, e30, e60, e90]
  · norm_num

/-- C2 amended: for every positive current price p the five projections
are `round(p·factor, 2)` for the factors 0.98/0.95/0.92/0.90/0.88 (not
the exact products); max savings is `round(p − min(projections), 2)`,
which equals p − min(projections) exactly whenever p has at most two
decimals; the recommendation is WAIT when max savings over p exceeds 5%
and BUY_NOW otherwise, and PRICE_UNAVAILABLE when no current price
exists.  At p = 1000 the projections are exactly [980, 950, 920, 900,
880], max savings 120, recommendation WAIT. -/
theorem c2_prediction_behavior (p : ℚ) (n : ℕ) (hp : 0 < p) :
    ((buildPrediction (some p) n).future_prices =
      some ⟨round2 (p * (98/100)), round2 (p * (95/100)), round2 (p * (92/100)),
            round2 (p * (90/100)), round2 (p * (88/100))⟩) ∧
    ((buildPrediction (some p) n).max_savings = some (round2 (p - predMin p))) ∧
    ((100 * p).den = 1 →
      (buildPrediction (some p) n).max_savings = some (p - predMin p)) ∧
    ((buildPrediction (some p) n).recommendation =
      if 5/100 < round2 (p - predMin p) / p then "WAIT" else "BUY_NOW") ∧
    ((buildPrediction none n).recommendation = "PRICE_UNAVAILABLE" ∧
      (buildPrediction none n).future_prices = none ∧
      (buildPrediction none n).max_savings = none) ∧
    (buildPrediction (some 1000) 1 =
      ⟨some ⟨980, 950, 920, 900, 880⟩, "WAIT", some 120, some 90, 60/100⟩) := by
  have hne : ¬ p = 0 := ne_of_gt hp
  refine ⟨?_, ?_, ?_, ?_, ⟨rfl, rfl, rfl⟩, buildPrediction_at_1000⟩
  · simp only [buildPrediction]
    rw [if_neg hne]
  · simp only [buildPrediction]
    rw [if_neg hne]
    rfl
  · intro hden
    have hd : (100 * (p - predMin p)).den = 1 := by
      rw [mul_sub]
      exact den_one_sub hden (hundred_mul_predMin_den p)
    simp only [buildPrediction]
    rw [if_neg hne]
    show some (round2 (p - predMin p)) = _
    rw [round2_of_den_one hd]
  · simp only [buildPrediction]
    rw [if_neg hne]
    rfl

/-! ## C9: comparison -/

theorem cfFold_spec (rs : List (String × Option ℚ)) :
    ∀ a : Option String × Option ℚ,
      ((a.1 = none ↔ a.2 = none) →
        ((rs.foldl cfStep a).1 = none ↔ (rs.foldl cfStep a).2 = none)) ∧
      ((rs.foldl cfStep a).2 = none ↔ (a.2 = none ∧ truthyPrices rs = [])) ∧
      (∀ q, (rs.foldl cfStep a).2 = some q →
        (∀ x ∈ truthyPrices rs, q ≤ x) ∧ (∀ c, a.2 = some c → q ≤ c) ∧
        (q ≠ 0 ∨ a.2 = some q) ∧
        ((∃ pl, (rs.foldl cfStep a).1 = some pl ∧ (pl, some q) ∈ rs) ∨
         (rs.foldl cfStep a = a ∧ a.2 = some q))) := by
  induction rs with
  | nil =>
    intro a
    simp only [List.foldl_nil]
    refine ⟨fun h => h, by simp [truthyPrices], ?_⟩
    intro q hq
    refine ⟨by simp [truthyPrices], ?_, Or.inr hq, Or.inr ⟨trivial, hq⟩⟩
    intro c hc
    rw [hq] at hc
    exact le_of_eq (Option.some.inj hc)
  | cons x rest ih =>
    rintro ⟨a1, a2⟩
    obtain ⟨pl0, po⟩ := x
    rcases po with _ | p
    · -- price absent: the step is a no-op and the head contributes no price
      have hstep : cfStep (a1, a2) (pl0, none) = (a1, a2) := rfl
      have htp : truthyPrices ((pl0, (none : Option ℚ)) :: rest) = truthyPrices rest := by
        simp [truthyPrices]
      simp only [List.foldl_cons, hstep, htp]
      refine ⟨(ih (a1, a2)).1, (ih (a1, a2)).2.1, ?_⟩
      intro q hq
      obtain ⟨hb, hacc, hnz, hmem⟩ := (ih (a1, a2)).2.2 q hq
      refine ⟨hb, hacc, hnz, ?_⟩
      rcases hmem with ⟨pl, hpl, hin⟩ | hsame
      · exact Or.inl ⟨pl, hpl, List.mem_cons_of_mem _ hin⟩
      · exact Or.inr hsame
    · by_cases hz : p = 0
      · -- falsy zero price: also a no-op
        have hstep : cfStep (a1, a2) (pl0, some p) = (a1, a2) := by simp [cfStep, hz]
        have htp : truthyPrices ((pl0, some p) :: rest) = truthyPrices rest := by
          simp [truthyPrices, hz]
        simp only [List.foldl_cons, hstep, htp]
        refine ⟨(ih (a1, a2)).1, (ih (a1, a2)).2.1, ?_⟩
        intro q hq
        obtain ⟨hb, hacc, hnz, hmem⟩ := (ih (a1, a2)).2.2 q hq
        refine ⟨hb, hacc, hnz, ?_⟩
        rcases hmem with ⟨pl, hpl, hin⟩ | hsame
        · exact Or.inl ⟨pl, hpl, List.mem_cons_of_mem _ hin⟩
        · exact Or.inr hsame
      · -- truthy price
        have htp : truthyPrices ((pl0, some p) :: rest) = p :: truthyPrices rest := by
          simp [truthyPrices, hz]
        rcases a2 with _ | c
        · -- empty accumulator: replaced by the head record
          have hstep : cfStep (a1, none) (pl0, some p) = (some pl0, some p) := by
            simp [cfStep, hz]
          simp only [List.foldl_cons, hstep, htp]
          obtain ⟨ih1, ih2, ih3⟩ := ih (some pl0, some p)
          refine ⟨fun _ => ih1 (by simp), ?_, ?_⟩
          · rw [ih2]
            simp
          · intro q hq
            obtain ⟨hb, hacc, hnz, hmem⟩ := ih3 q hq
            have hqp : q ≤ p := hacc p rfl
            refine ⟨?_, ?_, ?_, ?_⟩
            · intro x hx
              rcases List.mem_cons.mp hx with hx | hx
              · exact hx ▸ hqp
              · exact hb x hx
            · intro c hc
              exact Option.noConfusion hc
            · left
              rcases hnz with h | h
              · exact h
              · have hpq : p = q := Option.some.inj h
                exact hpq ▸ hz
            · rcases hmem with ⟨pl, hpl, hin⟩ | ⟨hsame, h2⟩
              · exact Or.inl ⟨pl, hpl, List.mem_cons_of_mem _ hin⟩
              · left
                refine ⟨pl0, by rw [hsame], ?_⟩
                have hpq : p = q := Option.some.inj h2
                rw [← hpq]
                exact List.mem_cons_self _ _
        · by_cases hpc : p < c
          · -- strictly cheaper: the accumulator is replaced
            have hstep : cfStep (a1, some c) (pl0, some p) = (some pl0, some p) := by
              simp [cfStep, hz, hpc]
            simp only [List.foldl_cons, hstep, htp]
            obtain ⟨ih1, ih2, ih3⟩ := ih (some pl0, some p)
            refine ⟨fun _ => ih1 (by simp), ?_, ?_⟩
            · rw [ih2]
              simp
            · intro q hq
              obtain ⟨hb, hacc, hnz, hmem⟩ := ih3 q hq
              have hqp : q ≤ p := hacc p rfl
              refine ⟨?_, ?_, ?_, ?_⟩
              · intro x hx
                rcases List.mem_cons.mp hx with hx | hx
                · exact hx ▸ hqp
                · exact hb x hx
              · intro c' hc'
                have hcc : c = c' := Option.some.inj hc'
                exact hcc ▸ le_trans hqp (le_of_lt hpc)
              · left
                rcases hnz with h | h
                · exact h
                · have hpq : p = q := Option.some.inj h
                  exact hpq ▸ hz
              · rcases hmem with ⟨pl, hpl, hin⟩ | ⟨hsame, h2⟩
                · exact Or.inl ⟨pl, hpl, List.mem_cons_of_mem _ hin⟩
                · left
                  refine ⟨pl0, by rw [hsame], ?_⟩
                  have hpq : p = q := Option.some.inj h2
                  rw [← hpq]
                  exact List.mem_cons_self _ _
          · -- not cheaper: the accumulator is kept
            have hstep : cfStep (a1, some c) (pl0, some p) = (a1, some c) := by
              simp [cfStep, hz, hpc]
            simp only [List.foldl_cons, hstep, htp]
            obtain ⟨ih1, ih2, ih3⟩ := ih (a1, some c)
            refine ⟨ih1, ?_, ?_⟩
            · rw [ih2]
              simp
            · intro q hq
              obtain ⟨hb, hacc, hnz, hmem⟩ := ih3 q hq
              have hqc : q ≤ c := hacc c rfl
              have hcp : c ≤ p := not_lt.mp hpc
              refine ⟨?_, hacc, hnz, ?_⟩
              · intro x hx
                rcases List.mem_cons.mp hx with hx | hx
                · exact hx ▸ le_trans hqc hcp
                · exact hb x hx
              · rcases hmem with ⟨pl, hpl, hin⟩ | hsame
                · exact Or.inl ⟨pl, hpl, List.mem_cons_of_mem _ hin⟩
                · exact Or.inr hsame

/-- C9 counterexample: when both marketplaces produced a record but only
one of them has a price, the comparison sets both_found = true (line 1061
counts records, not prices), whereas the claim requires both_found =
false in that situation. -/
theorem c9_comparison_counterexample :
    (buildComparison [("amazon", some 500), ("flipkart", none)]).both_found = true ∧
    truthyPrices [("amazon", some 500), ("flipkart", none)] = [500] ∧
    (buildComparison [("amazon", some 500), ("flipkart", none)]).price_difference = none := by
  refine ⟨rfl, ?_, ?_⟩
  · norm_num [truthyPrices, List.filterMap_cons]
  · have htp1 : truthyPrices [("amazon", some (500 : ℚ)), ("flipkart", none)] = [500] := by
      norm_num [truthyPrices, List.filterMap_cons]
    simp only [buildComparison, htp1]

/-- C9 amended: the cheapest platform/price is the arg-min over the
truthy prices in insertion order (absent exactly when no record has a
price); the price difference is the absolute difference, present exactly
when two truthy prices exist; but both_found is true exactly when TWO
RECORDS exist, regardless of whether both carry prices.  The claim's
example (500 vs 650 → cheapest amazon, difference 150, both_found true)
holds.  In the shipped `analyze_url` the cross-platform search is
commented out, so at most one record ever reaches this comparison. -/
theorem c9_comparison_behavior (rs : List (String × Option ℚ)) :
    ((buildComparison rs).cheapest_price = none ↔ truthyPrices rs = []) ∧
    ((buildComparison rs).cheapest_platform = none ↔ truthyPrices rs = []) ∧
    (∀ q, (buildComparison rs).cheapest_price = some q →
      q ∈ truthyPrices rs ∧ (∀ x ∈ truthyPrices rs, q ≤ x) ∧
      ∃ pl, (buildComparison rs).cheapest_platform = some pl ∧ (pl, some q) ∈ rs) ∧
    ((buildComparison rs).price_difference =
      (match truthyPrices rs with
       | [a, b] => some |a - b|
       | _ => none)) ∧
    ((buildComparison rs).both_found = (rs.length == 2)) ∧
    (buildComparison [("amazon", some 500), ("flipkart", some 650)] =
      ⟨some "amazon", some 500, some 150, true⟩) := by
  obtain ⟨hpair, hnone, hsome⟩ := cfFold_spec rs ((none : Option String), (none : Option ℚ))
  have hcp : (buildComparison rs).cheapest_price = (rs.foldl cfStep (none, none)).2 := rfl
  have hcpl : (buildComparison rs).cheapest_platform = (rs.foldl cfStep (none, none)).1 := rfl
  refine ⟨?_, ?_, ?_, ?_, ?_, ?_⟩
  · rw [hcp, hnone]
    simp
  · rw [hcpl, hpair (by simp), hnone]
    simp
  · intro q hq
    rw [hcp] at hq
    obtain ⟨hb, _, hnz, hmem⟩ := hsome q hq
    have hqnz : q ≠ 0 := by
      rcases hnz with h | h
      · exact h
      · exact Option.noConfusion h
    rcases hmem with ⟨pl, hpl, hin⟩ | ⟨_, h2⟩
    · refine ⟨?_, hb, pl, by rw [hcpl]; exact hpl, hin⟩
      exact List.mem_filterMap.mpr ⟨(pl, some q), hin, by simp [hqnz]⟩
    · exact Option.noConfusion h2
  · rfl
  · rfl
  · have h1 : cfStep ((none : Option String), (none : Option ℚ)) ("amazon", some 500) =
        (some "amazon", some 500) := by
      norm_num [cfStep]
    have h2 : cfStep ((some "amazon" : Option String), (some 500 : Option ℚ))
        ("flipkart", some 650) = (some "amazon", some 500) := by
      norm_num [cfStep]
    have htp : truthyPrices [("amazon", some (500 : ℚ)), ("flipkart", some 650)] =
        [500, 650] := by
      norm_num [truthyPrices, List.filterMap_cons]
    have habs : |(500 : ℚ) - 650| = 150 := by
      rw [abs_of_neg (by norm_num : (500 : ℚ) - 650 < 0)]
      norm_num
    simp only [buildComparison, cheapestFold, List.foldl_cons, List.foldl_nil, h1, h2, htp,
      habs]
    rfl

/-- Witness for C9 at the claim's example records: the arg-min clause
applied to the 500-vs-650 comparison. -/
theorem c9_comparison_behavior_witness :
    (500 : ℚ) ∈ truthyPrices [("amazon", some 500), ("flipkart", some 650)] ∧
    (∀ x ∈ truthyPrices [("amazon", some (500 : ℚ)), ("flipkart", some 650)], (500 : ℚ) ≤ x) := by
  have hex := (c9_comparison_behavior [("amazon", some 500), ("flipkart", some 650)]).2.2.2.2.2
  have hcp : (buildComparison [("amazon", some 500), ("flipkart", some 650)]).cheapest_price =
      some 500 := by rw [hex]
  have h := (c9_comparison_behavior [("amazon", some 500), ("flipkart", some 650)]).2.2.1 500 hcp
  exact ⟨h.1, h.2.1⟩

/-! ## C8: redirect-parameter resolution -/

/-- C8 counterexample: for `?redirect=%252flipkart.com` the once-decoded
value "%2flipkart.com" contains "flipkart.com" — the claim's hypothesis —
but the code percent-decodes a SECOND time (line 202 re-unquotes the
already-decoded `parse_qs` value), obtains "/lipkart.com", rejects it,
and proceeds to the network path: with failing network the original URL
comes back, and a different network oracle changes the result, so a
fetch is performed. -/
theorem c8_resolve_counterexample :
    qsFirst (parseQsl (pyQueryStr "http://x.com/?redirect=%252flipkart.com")) "redirect" =
      some "%2flipkart.com" ∧
    containsSub "flipkart.com" "%2flipkart.com" = true ∧
    pyUnquote "%2flipkart.com" = "/lipkart.com" ∧
    resolveQuery "http://x.com/?redirect=%252flipkart.com" = none ∧
    resolveUrl netFail false "http://x.com/?redirect=%252flipkart.com" =
      "http://x.com/?redirect=%252flipkart.com" ∧
    resolveUrl netHit false "http://x.com/?redirect=%252flipkart.com" =
      "https://www.flipkart.com/x/p/y" := by
  refine ⟨?_, ?_, ?_, ?_, ?_, ?_⟩ <;> decide

/-- C8 amended: whenever the redirect-parameter step fires — the first
key among url/u/redirect/redirect_url/target is present and its parsed
value, after the second percent-decoding the code applies, contains a
marketplace host — resolve_url returns that twice-decoded value for
every network oracle in both modes, so no fetch influences the result.
On singly-encoded values such as the spec's example the second decoding
is the identity and the returned value is the percent-decoded one. -/
theorem c8_resolve_query_no_fetch :
    (∀ url c, resolveQuery url = some c → ∀ net fast, resolveUrl net fast url = c) ∧
    resolveQuery "https://r.example/?redirect=https%3A%2F%2Fwww.flipkart.com%2Fp%2Fabc" =
      some "https://www.flipkart.com/p/abc" := by
  constructor
  · intro url c h net fast
    unfold resolveUrl
    rw [h]
  · decide

/-- Witness for C8 at the spec's example redirect URL. -/
theorem c8_resolve_query_no_fetch_witness :
    resolveUrl netFail false
      "https://r.example/?redirect=https%3A%2F%2Fwww.flipkart.com%2Fp%2Fabc" =
      "https://www.flipkart.com/p/abc" :=
  c8_resolve_query_no_fetch.1 _ _ (by decide) netFail false

/-! ## C6: the short-link retry of `scrape_flipkart` -/

theorem fkStep_nonshort_total (O : FkOracle) (retry : String → Option (Option ProductRecord))
    (url : String) (hs : FK_SHORT_HOSTS.contains (pyLower (pyNetloc url)) = false) :
    fkStep O retry url ≠ none := by
  intro hcon
  simp only [fkStep, hs, Bool.false_eq_true, if_false, Bool.not_false, Bool.and_true] at hcon
  repeat' split at hcon
  all_goals exact Option.noConfusion hcon

/-- C6 counterexample: two distinct failing `dl.flipkart.com` URLs that
resolve to each other make `scrape_flipkart` re-invoke itself without
bound: fuel covering the original call plus one retry (2) is exhausted,
and so is any larger fuel (shown for 9) — the `resolved != url` guard
only prevents an immediate self-loop, not a cycle. -/
theorem c6_retry_counterexample :
    scrapeFlipkartFuel fkCycleOracle 2 "https://dl.flipkart.com/a" = none ∧
    scrapeFlipkartFuel fkCycleOracle 9 "https://dl.flipkart.com/a" = none := by
  constructor <;> decide

/-- C6 amended: each invocation performs at most one resolve-and-retry,
and whenever resolution never lands on a Flipkart short-link host the
whole scrape terminates within one retry (fuel 2 suffices for every
oracle and URL); unbounded recursion requires resolution to keep
producing distinct failing short-link URLs. -/
theorem c6_retry_bounded (O : FkOracle) (url : String)
    (h : ∀ u, FK_SHORT_HOSTS.contains (pyLower (pyNetloc (O.resolve u))) = false) :
    scrapeFlipkartFuel O 2 url ≠ none := by
  by_cases hs : FK_SHORT_HOSTS.contains (pyLower (pyNetloc url)) = false
  · exact fkStep_nonshort_total O _ url hs
  · intro hcon
    have hs' : FK_SHORT_HOSTS.contains (pyLower (pyNetloc url)) = true := by
      cases hb : FK_SHORT_HOSTS.contains (pyLower (pyNetloc url))
      · exact absurd hb hs
      · rfl
    have hcon' : fkStep O (scrapeFlipkartFuel O 1) url = none := hcon
    simp only [fkStep, hs', Bool.true_eq_false, if_true, Bool.not_true, Bool.and_false] at hcon'
    repeat' split at hcon'
    all_goals first
      | exact Option.noConfusion hcon'
      | exact fkStep_nonshort_total O _ _ (h _) hcon'

/-- Witness for C6: an oracle whose resolver always lands on a full
product URL terminates within fuel 2. -/
theorem c6_retry_bounded_witness :
    scrapeFlipkartFuel fkResolveToFull 2 "https://dl.flipkart.com/a" ≠ none := by
  apply c6_retry_bounded
  intro u
  show FK_SHORT_HOSTS.contains (pyLower (pyNetloc "https://www.flipkart.com/x/p/y")) = false
  decide

/-! ## C7: specification normalization -/

theorem truncVal_lower_not_unavailable (val : String) :
    pyLower (truncVal val) ∉ UNAVAILABLE_VALUES := by
  intro hmem
  have hsuf : ['.', '.', '.'] <:+ (pyLower (truncVal val)).toList := by
    have h1 : (pyLower (truncVal val)).toList =
        ((rstripBy Char.isWhitespace (val.toList.take 257)).map Char.toLower) ++
          ['.', '.', '.'] := by
      show ((truncVal val).toList.map Char.toLower) = _
      have h2 : (truncVal val).toList =
          rstripBy Char.isWhitespace (val.toList.take 257) ++ ['.', '.', '.'] := rfl
      rw [h2, List.map_append]
      rfl
    rw [h1]
    exact List.suffix_append _ _
  simp only [UNAVAILABLE_VALUES, List.mem_cons, List.not_mem_nil, or_false] at hmem
  rcases hmem with h | h | h | h | h | h <;> rw [h] at hsuf <;> exact absurd hsuf (by decide)

set_option maxHeartbeats 2000000 in
theorem normalizeSpecsAux_spec (pairs : List (String × String)) :
    ∀ (seen : List String) (room : ℕ),
      (1 ≤ room → (normalizeSpecsAux pairs seen room).length ≤ room) ∧
      ((normalizeSpecsAux pairs seen room).map (fun kv => keyFold kv.1)).Nodup ∧
      (∀ kv ∈ normalizeSpecsAux pairs seen room,
        keyFold kv.1 ∉ SPEC_NOISE_KEYS ∧ keyFold kv.1 ∉ seen ∧
        pyLower kv.2 ∉ UNAVAILABLE_VALUES) ∧
      (normalizeSpecsAux pairs seen room).Sublist (pairs.map specProcessed) := by
  induction pairs with
  | nil =>
    intro seen room
    simp [normalizeSpecsAux]
  | cons hd rest ih =>
    intro seen room
    obtain ⟨rk, rv⟩ := hd
    have hforward : normalizeSpecsAux ((rk, rv) :: rest) seen room =
        normalizeSpecsAux rest seen room →
        (1 ≤ room → (normalizeSpecsAux ((rk, rv) :: rest) seen room).length ≤ room) ∧
        ((normalizeSpecsAux ((rk, rv) :: rest) seen room).map (fun kv => keyFold kv.1)).Nodup ∧
        (∀ kv ∈ normalizeSpecsAux ((rk, rv) :: rest) seen room,
          keyFold kv.1 ∉ SPEC_NOISE_KEYS ∧ keyFold kv.1 ∉ seen ∧
          pyLower kv.2 ∉ UNAVAILABLE_VALUES) ∧
        (normalizeSpecsAux ((rk, rv) :: rest) seen room).Sublist
          (((rk, rv) :: rest).map specProcessed) := by
      intro hskip
      rw [hskip]
      obtain ⟨ihl, ihn, ihm, ihs⟩ := ih seen room
      refine ⟨ihl, ihn, ihm, ?_⟩
      simp only [List.map_cons]
      exact ihs.trans (List.sublist_cons_self _ _)
    by_cases h1 : cleanSpecText rk = "" ∨ cleanSpecText rv = ""
    · refine hforward ?_
      simp only [normalizeSpecsAux]
      rw [if_pos h1]
    · by_cases h2 : keyFold (cleanSpecText rk) = "" ∨
          keyFold (cleanSpecText rk) ∈ SPEC_NOISE_KEYS ∨ keyFold (cleanSpecText rk) ∈ seen
      · refine hforward ?_
        simp only [normalizeSpecsAux]
        rw [if_neg h1, if_pos h2]
      · by_cases h3 : pyLower (cleanSpecText rv) ∈ UNAVAILABLE_VALUES
        · refine hforward ?_
          simp only [normalizeSpecsAux]
          rw [if_neg h1, if_neg h2, if_pos h3]
        · by_cases h4 : 80 < (cleanSpecText rk).length
          · refine hforward ?_
            simp only [normalizeSpecsAux]
            rw [if_neg h1, if_neg h2, if_neg h3, if_pos h4]
          · -- the pair is inserted
            push_neg at h2
            obtain ⟨hkn, hknoise, hkseen⟩ := h2
            have hins : normalizeSpecsAux ((rk, rv) :: rest) seen room =
                specProcessed (rk, rv) ::
                (if room ≤ 1 then []
                 else normalizeSpecsAux rest (keyFold (cleanSpecText rk) :: seen) (room - 1)) := by
              simp only [normalizeSpecsAux]
              rw [if_neg h1, if_neg (by push_neg; exact ⟨hkn, hknoise, hkseen⟩), if_neg h3,
                if_neg h4]
              rfl
            have hp1 : (specProcessed (rk, rv)).1 = cleanSpecText rk := rfl
            have hpnoise : keyFold (specProcessed (rk, rv)).1 ∉ SPEC_NOISE_KEYS := by
              rw [hp1]
              exact hknoise
            have hpseen : keyFold (specProcessed (rk, rv)).1 ∉ seen := by
              rw [hp1]
              exact hkseen
            have hvok : pyLower (specProcessed (rk, rv)).2 ∉ UNAVAILABLE_VALUES := by
              have hp2 : (specProcessed (rk, rv)).2 =
                  (if 260 < (cleanSpecText rv).length then truncVal (cleanSpecText rv)
                   else cleanSpecText rv) := rfl
              rw [hp2]
              split
              · exact truncVal_lower_not_unavailable _
              · exact h3
            rw [hins]
            by_cases h5 : room ≤ 1
            · rw [if_pos h5]
              refine ⟨?_, by simp, ?_, ?_⟩
              · intro hr
                simp only [List.length_cons, List.length_nil]
                omega
              · intro kv hkv
                rcases List.mem_cons.mp hkv with hkv | hkv
                · rw [hkv]
                  exact ⟨hpnoise, hpseen, hvok⟩
                · exact absurd hkv (List.not_mem_nil _)
              · simp only [List.map_cons]
                exact List.cons_sublist_cons.mpr (List.nil_sublist _)
            · rw [if_neg h5]
              obtain ⟨ihl, ihn, ihm, ihs⟩ := ih (keyFold (cleanSpecText rk) :: seen) (room - 1)
              refine ⟨?_, ?_, ?_, ?_⟩
              · intro hroom1
                have hroom : 1 ≤ room - 1 := by omega
                have hlen := ihl hroom
                simp only [List.length_cons]
                omega
              · simp only [List.map_cons, List.nodup_cons]
                refine ⟨?_, ihn⟩
                intro hmem
                obtain ⟨kv, hkv, hfold⟩ := List.mem_map.mp hmem
                have hnotin := (ihm kv hkv).2.1
                rw [hp1] at hfold
                exact hnotin (hfold ▸ List.mem_cons_self _ _)
              · intro kv hkv
                rcases List.mem_cons.mp hkv with hkv | hkv
                · rw [hkv]
                  exact ⟨hpnoise, hpseen, hvok⟩
                · obtain ⟨m1, m2, m3⟩ := ihm kv hkv
                  exact ⟨m1, fun hm => m2 (List.mem_cons_of_mem _ hm), m3⟩
              · simp only [List.map_cons]
                exact List.cons_sublist_cons.mpr ihs

/-- C7: specification normalization yields at most 36 entries, none whose
folded key is in the noise set, at most one entry per folded key, no
value from the "unavailable" token set, and the output is a subsequence
of the cleaned/truncated input pairs in first-seen order (so the first
acceptable occurrence of each folded key is the one kept). -/
theorem c7_normalize_specs (pairs : List (String × String)) :
    (normalizeSpecs pairs).length ≤ 36 ∧
    (∀ kv ∈ normalizeSpecs pairs, keyFold kv.1 ∉ SPEC_NOISE_KEYS) ∧
    ((normalizeSpecs pairs).map (fun kv => keyFold kv.1)).Nodup ∧
    (∀ kv ∈ normalizeSpecs pairs, pyLower kv.2 ∉ UNAVAILABLE_VALUES) ∧
    (normalizeSpecs pairs).Sublist (pairs.map specProcessed) := by
  obtain ⟨hl, hn, hm, hs⟩ := normalizeSpecsAux_spec pairs [] SPEC_MAX_ITEMS
  exact ⟨hl (by norm_num [SPEC_MAX_ITEMS]), fun kv hkv => (hm kv hkv).1, hn,
    fun kv hkv => (hm kv hkv).2.2, hs⟩

/-- Witness for C7 on a small concrete input: the kept entry passes the
noise and availability filters. -/
theorem c7_normalize_specs_witness :
    keyFold ("Color", "Red").1 ∉ SPEC_NOISE_KEYS ∧
    pyLower ("Color", "Red").2 ∉ UNAVAILABLE_VALUES :=
  ⟨(c7_normalize_specs [("Color", "Red"), ("COLOR", "Blue"), ("ASIN", "B0"), ("Weight", "NA")]).2.1
      ("Color", "Red") (by decide),
   (c7_normalize_specs [("Color", "Red"), ("COLOR", "Blue"), ("ASIN", "B0"), ("Weight", "NA")]).2.2.2.1
      ("Color", "Red") (by decide)⟩

/-! ## C4 and C10: record invariants of the scrapers -/

theorem pyPrice_bound {s : String} {v : ℚ} (h : pyPrice s = some v) :
    10 < v ∧ v < 10000000 := by
  unfold pyPrice pyPriceL at h
  split at h
  · exact Option.noConfusion h
  · split at h
    · obtain rfl := Option.some.inj h
      assumption
    · exact Option.noConfusion h

theorem firstPrice_bound {l : List String} {v : ℚ} (h : firstPrice l = some v) :
    10 < v ∧ v < 10000000 := by
  unfold firstPrice at h
  have hm : v ∈ l.filterMap pyPrice := by
    cases hl : l.filterMap pyPrice with
    | nil => rw [hl] at h; exact Option.noConfusion h
    | cons a t =>
      rw [hl] at h
      obtain rfl := Option.some.inj h
      exact List.mem_cons_self _ _
  obtain ⟨s, _, hs⟩ := List.mem_filterMap.mp hm
  exact pyPrice_bound hs

theorem opt_orElse_some {α : Type} {a b : Option α} {v : α} (h : (a <|> b) = some v) :
    a = some v ∨ b = some v := by
  cases a
  · right
    simpa using h
  · left
    simpa using h

theorem bind_price_bound {o : Option String} {v : ℚ} (h : o.bind pyPrice = some v) :
    10 < v ∧ v < 10000000 := by
  cases o with
  | none => exact Option.noConfusion h
  | some s => exact pyPrice_bound h

theorem bind_firstPrice_bound {o : Option String} {f : String → List String} {v : ℚ}
    (h : (o.bind fun pv => firstPrice (f pv)) = some v) :
    10 < v ∧ v < 10000000 := by
  cases o with
  | none => exact Option.noConfusion h
  | some pv => exact firstPrice_bound h

theorem normImg_starts {u : Option String} {s : String} (h : normImg u = some s) :
    pyStartsWith s "http" = true := by
  cases u with
  | none => exact Option.noConfusion h
  | some s0 =>
    simp only [normImg] at h
    repeat' split at h
    all_goals first
      | exact Option.noConfusion h
      | (obtain rfl := Option.some.inj h; assumption)

theorem normImg_protocol_relative {s : String} (h1 : ¬ s = "")
    (h2 : pyStartsWith (pyStrip s) "//" = true) :
    normImg (some s) = some ("https:" ++ pyStrip s) := by
  simp only [normImg]
  rw [if_neg h1]
  have hs1 : (if pyStartsWith (pyStrip s) "//" then "https:" ++ pyStrip s else pyStrip s) =
      "https:" ++ pyStrip s := by rw [if_pos h2]
  rw [hs1]
  have hhttp : pyStartsWith ("https:" ++ pyStrip s) "http" = true := by
    show hasPre "http".toList (("https:" ++ pyStrip s).toList) = true
    have : ("https:" ++ pyStrip s).toList = 'h' :: 't' :: 't' :: 'p' :: 's' :: ':' ::
        (pyStrip s).toList := rfl
    rw [this]
    simp [hasPre]
  rw [if_pos hhttp]

theorem parseAmazonStructured_fields {d : AmazonStruct} {r : ProductRecord}
    (h : parseAmazonStructured d = some r) :
    (∀ p, r.price = some p → 10 < p ∧ p < 10000000) ∧
    (∀ s, r.image_url = some s → pyStartsWith s "http" = true) := by
  simp only [parseAmazonStructured] at h
  split at h
  · exact Option.noConfusion h
  · obtain rfl := Option.some.inj h
    constructor
    · intro p hp
      rcases opt_orElse_some hp with h1 | h1 <;> exact firstPrice_bound h1
    · intro s hs
      exact normImg_starts hs

theorem amazonFromHtml_fields {url : String} {pg : AmazonHtml} {r : ProductRecord}
    (h : amazonFromHtml url pg = some r) :
    (∀ p, r.price = some p → 10 < p ∧ p < 10000000) ∧
    (∀ s, r.image_url = some s → pyStartsWith s "http" = true) := by
  simp only [amazonFromHtml] at h
  split at h
  · exact Option.noConfusion h
  · obtain rfl := Option.some.inj h
    constructor
    · intro p hp
      rcases opt_orElse_some hp with h1 | h1
      · rcases opt_orElse_some h1 with h2 | h2
        · rcases opt_orElse_some h2 with h3 | h3 <;> exact firstPrice_bound h3
        · exact firstPrice_bound h2
      · exact bind_price_bound h1
    · intro s hs
      exact normImg_starts hs

theorem scrapeAmazon_source {url : String} {sd : Option AmazonStruct}
    {api dir : Option AmazonHtml} {r : ProductRecord}
    (h : scrapeAmazon url sd api dir = some r) :
    (∃ d, parseAmazonStructured d = some r) ∨ (∃ pg, amazonFromHtml url pg = some r) := by
  simp only [scrapeAmazon] at h
  split at h
  · next r0 heq =>
    obtain rfl := Option.some.inj h
    left
    split at heq
    · next r1 hbind =>
      split at heq
      · obtain rfl := Option.some.inj heq
        cases sd with
        | none => exact Option.noConfusion hbind
        | some d => exact ⟨d, hbind⟩
      · exact Option.noConfusion heq
    · exact Option.noConfusion heq
  · right
    repeat' split at h
    all_goals try exact absurd h (by simp)
    all_goals exact ⟨_, h⟩

theorem fkPricePrefer_bound {a b : Option ℚ} {v : ℚ}
    (ha : ∀ w, a = some w → 10 < w ∧ w < 10000000)
    (hb : ∀ w, b = some w → 10 < w ∧ w < 10000000)
    (h : fkPricePrefer a b = some v) : 10 < v ∧ v < 10000000 := by
  cases a with
  | none => exact hb v h
  | some pp =>
    cases b with
    | none =>
      simp only [fkPricePrefer] at h
      exact ha v h
    | some pr =>
      simp only [fkPricePrefer] at h
      split at h
      · exact ha v h
      · exact hb v h

theorem fkExtract_fields {O : FkOracle} {url : String} {pg : FkHtml} {u1 : String}
    {r : ProductRecord} (h : fkExtract O url pg = (u1, some r)) :
    (∀ p, r.price = some p → 10 < p ∧ p < 10000000) ∧
    (∀ s, r.image_url = some s → pyStartsWith s "http" = true) := by
  simp only [fkExtract] at h
  split at h
  · exact absurd (congrArg Prod.snd h) (by simp)
  · have hr : (some r : Option ProductRecord) = some _ := (congrArg Prod.snd h).symm
    simp only at hr
    obtain rfl := Option.some.inj hr.symm
    constructor
    · intro p hp
      rcases opt_orElse_some hp with h1 | h1
      · rcases opt_orElse_some h1 with h2 | h2
        · refine fkPricePrefer_bound ?_ ?_ h2
          · intro w hw
            exact bind_firstPrice_bound hw
          · intro w hw
            rcases opt_orElse_some hw with h3 | h3 <;> exact firstPrice_bound h3
        · exact firstPrice_bound h2
      · exact bind_price_bound h1
    · intro s hs
      exact normImg_starts hs

theorem scrapeFkFuel_fields (O : FkOracle) :
    ∀ (fuel : ℕ) (url : String) (r : ProductRecord),
      scrapeFlipkartFuel O fuel url = some (some r) →
      ((∀ p, r.price = some p → 10 < p ∧ p < 10000000) ∧
       (∀ s, r.image_url = some s → pyStartsWith s "http" = true)) := by
  intro fuel
  induction fuel with
  | zero =>
    intro url r h
    exact Option.noConfusion h
  | succ n ihn =>
    intro url r h
    simp only [scrapeFlipkartFuel, fkStep] at h
    repeat' split at h
    all_goals first
      | (obtain rfl := Option.some.inj (Option.some.inj h)
         exact fkExtract_fields (by assumption))
      | exact ihn _ r h
      | exact absurd h (by simp)

theorem isDigitC_elim {c : Char} (h : isDigitC c = true) :
    c = '0' ∨ c = '1' ∨ c = '2' ∨ c = '3' ∨ c = '4' ∨ c = '5' ∨ c = '6' ∨ c = '7' ∨
    c = '8' ∨ c = '9' := by
  simpa [isDigitC, List.contains] using h

theorem numChar_not_stripped {c : Char} (h : isDigitC c = true ∨ c = '.') :
    isStrippedPriceChar c = false := by
  rcases h with h | rfl
  · rcases isDigitC_elim h with rfl|rfl|rfl|rfl|rfl|rfl|rfl|rfl|rfl|rfl <;> decide
  · decide

theorem numChar_not_ws {c : Char} (h : isDigitC c = true ∨ c = '.') :
    c.isWhitespace = false := by
  rcases h with h | rfl
  · rcases isDigitC_elim h with rfl|rfl|rfl|rfl|rfl|rfl|rfl|rfl|rfl|rfl <;> decide
  · decide

theorem numChar_not_tok {c : Char} (h : isDigitC c = true ∨ c = '.') :
    ciEq c 'I' = false ∧ ciEq c 'M' = false ∧ ciEq c 'R' = false ∧ ciEq c 'U' = false := by
  rcases h with h | rfl
  · rcases isDigitC_elim h with rfl|rfl|rfl|rfl|rfl|rfl|rfl|rfl|rfl|rfl <;> exact ⟨rfl, rfl, rfl, rfl⟩
  · exact ⟨rfl, rfl, rfl, rfl⟩

theorem removeTokensGo_id : ∀ (fuel : ℕ) (l : List Char),
    (∀ c ∈ l, isDigitC c = true ∨ c = '.') → removeTokensGo fuel l = l
  | 0, l, _ => by cases l <;> rfl
  | _ + 1, [], _ => rfl
  | fuel + 1, c :: cs, h => by
    obtain ⟨h1, h2, h3, h4⟩ := numChar_not_tok (h c (List.mem_cons_self c cs))
    simp only [removeTokensGo, h1, h2, h3, h4, Bool.false_eq_true, if_false]
    rw [removeTokensGo_id fuel cs (fun x hx => h x (List.mem_cons_of_mem c hx))]

theorem dropWhile_id {p : Char → Bool} {l : List Char}
    (h : ∀ c ∈ l, p c = false) : l.dropWhile p = l := by
  cases l with
  | nil => rfl
  | cons c cs =>
    rw [List.dropWhile_cons, h c (List.mem_cons_self c cs)]
    simp

theorem stripBy_id {p : Char → Bool} {l : List Char}
    (h : ∀ c ∈ l, p c = false) : stripBy p l = l := by
  unfold stripBy rstripBy
  rw [dropWhile_id h, dropWhile_id (fun c hc => h c (List.mem_reverse.mp hc)),
    List.reverse_reverse]

theorem priceCleanL_id {l : List Char}
    (h : ∀ c ∈ l, isDigitC c = true ∨ c = '.') : priceCleanL l = l := by
  unfold priceCleanL removeTokens
  rw [List.filter_eq_self.mpr (fun c hc => by
    rw [numChar_not_stripped (h c hc)]; rfl)]
  rw [removeTokensGo_id l.length l h]
  exact stripBy_id (fun c hc => numChar_not_ws (h c hc))

theorem ntd_aux_append : ∀ (n : ℕ) (acc : List Char),
    natToDigitsAux n acc = natToDigitsAux n [] ++ acc := by
  intro n
  induction n using Nat.strong_induction_on with
  | _ n ih =>
    intro acc
    match n with
    | 0 => simp [natToDigitsAux]
    | m + 1 =>
      have hlt : (m + 1) / 10 < m + 1 := by
        have h : (m + 1) / 10 < m + 1 := Nat.div_lt_self (Nat.succ_pos m) (by norm_num)
        omega
      rw [natToDigitsAux, natToDigitsAux, ih _ hlt,
        ih ((m + 1) / 10) hlt [((m + 1) % 10).digitChar]]
      simp

theorem digitChar_digit : ∀ d < 10, isDigitC (Nat.digitChar d) = true := by decide

theorem digitChar_toNat : ∀ d < 10, (Nat.digitChar d).toNat - 48 = d := by decide

theorem ntd_aux_digits : ∀ n, ∀ c ∈ natToDigitsAux n [], isDigitC c = true := by
  intro n
  induction n using Nat.strong_induction_on with
  | _ n ih =>
    match n with
    | 0 => intro c hc; simp [natToDigitsAux] at hc
    | m + 1 =>
      intro c hc
      rw [natToDigitsAux, ntd_aux_append] at hc
      rcases List.mem_append.mp hc with hc | hc
      · have hlt : (m + 1) / 10 < m + 1 := by
          have h : (m + 1) / 10 < m + 1 := Nat.div_lt_self (Nat.succ_pos m) (by norm_num)
          omega
        exact ih _ hlt c hc
      · rw [List.mem_singleton.mp hc]
        exact digitChar_digit _ (Nat.mod_lt _ (by norm_num))

theorem ntd_digits (n : ℕ) : ∀ c ∈ natToDigits n, isDigitC c = true := by
  unfold natToDigits
  split
  · intro c hc; rw [List.mem_singleton.mp hc]; rfl
  · exact ntd_aux_digits n

theorem parseNatL_append_digit (l : List Char) (c : Char) :
    parseNatL (l ++ [c]) = 10 * parseNatL l + (c.toNat - 48) := by
  simp [parseNatL, List.foldl_append]

theorem ntd_aux_parse : ∀ n, parseNatL (natToDigitsAux n []) = n := by
  intro n
  induction n using Nat.strong_induction_on with
  | _ n ih =>
    match n with
    | 0 => simp [natToDigitsAux]; rfl
    | m + 1 =>
      have hlt : (m + 1) / 10 < m + 1 := by
        have h : (m + 1) / 10 < m + 1 := Nat.div_lt_self (Nat.succ_pos m) (by norm_num)
        omega
      rw [natToDigitsAux, ntd_aux_append, parseNatL_append_digit, ih _ hlt,
        digitChar_toNat _ (Nat.mod_lt _ (by norm_num))]
      omega

theorem ntd_parse (n : ℕ) : parseNatL (natToDigits n) = n := by
  unfold natToDigits
  split
  · next h => rw [h]; rfl
  · exact ntd_aux_parse n

theorem ntd_aux_len_le : ∀ (n k : ℕ), n < 10 ^ k → (natToDigitsAux n []).length ≤ k := by
  intro n
  induction n using Nat.strong_induction_on with
  | _ n ih =>
    intro k hk
    match n with
    | 0 => simp [natToDigitsAux]
    | m + 1 =>
      match k with
      | 0 => omega
      | k + 1 =>
        have hlt : (m + 1) / 10 < m + 1 := by
          have h : (m + 1) / 10 < m + 1 := Nat.div_lt_self (Nat.succ_pos m) (by norm_num)
          omega
        have hdiv : (m + 1) / 10 < 10 ^ k := by
          rw [Nat.div_lt_iff_lt_mul (by norm_num : (0:ℕ) < 10)]
          calc m + 1 < 10 ^ (k + 1) := hk
            _ = 10 ^ k * 10 := by ring
        rw [natToDigitsAux, ntd_aux_append, List.length_append]
        have := ih _ hlt k hdiv
        simp only [List.length_singleton]
        omega

theorem ntd_aux_len_ge : ∀ (k n : ℕ), 10 ^ k ≤ n → k + 1 ≤ (natToDigitsAux n []).length := by
  intro k
  induction k with
  | zero =>
    intro n hn
    match n with
    | 0 => omega
    | m + 1 =>
      rw [natToDigitsAux, ntd_aux_append, List.length_append]
      simp
  | succ k ihk =>
    intro n hn
    have hn0 : 0 < n := lt_of_lt_of_le (Nat.pos_pow_of_pos _ (by norm_num)) hn
    match n, hn0 with
    | m + 1, _ =>
      have hdiv : 10 ^ k ≤ (m + 1) / 10 := by
        rw [Nat.le_div_iff_mul_le (by norm_num : (0:ℕ) < 10)]
        calc 10 ^ k * 10 = 10 ^ (k + 1) := by ring
          _ ≤ m + 1 := hn
      rw [natToDigitsAux, ntd_aux_append, List.length_append]
      have := ihk _ hdiv
      simp only [List.length_singleton]
      omega

theorem ntd_len_le {n k : ℕ} (h : n < 10 ^ k) (hk : 1 ≤ k) : (natToDigits n).length ≤ k := by
  unfold natToDigits
  split
  · simpa using hk
  · exact ntd_aux_len_le n k h

theorem ntd_len_ge {n k : ℕ} (h : 10 ^ k ≤ n) : k + 1 ≤ (natToDigits n).length := by
  unfold natToDigits
  split
  · next h0 =>
      subst h0
      have h10 : 0 < 10 ^ k := Nat.pos_pow_of_pos k (by norm_num)
      omega
  · exact ntd_aux_len_ge k n h

theorem takeWhile_append_stop {p : Char → Bool} {x : Char} (hx : p x = false) :
    ∀ {l1 : List Char} (l2 : List Char), (∀ c ∈ l1, p c = true) →
      (l1 ++ x :: l2).takeWhile p = l1
  | [], l2, _ => by simp [List.takeWhile_cons, hx]
  | c :: cs, l2, h => by
    rw [List.cons_append, List.takeWhile_cons, h c (List.mem_cons_self c cs)]
    simp only [if_true]
    rw [takeWhile_append_stop hx l2 (fun d hd => h d (List.mem_cons_of_mem c hd))]

theorem takeWhile_id {p : Char → Bool} :
    ∀ {l : List Char}, (∀ c ∈ l, p c = true) → l.takeWhile p = l
  | [], _ => rfl
  | c :: cs, h => by
    rw [List.takeWhile_cons, h c (List.mem_cons_self c cs)]
    simp only [if_true]
    rw [takeWhile_id (fun d hd => h d (List.mem_cons_of_mem c hd))]

theorem take_of_len_le {l : List Char} {n : ℕ} (h : l.length ≤ n) : l.take n = l :=
  List.take_of_length_le h

theorem matchNumAt_fd_le {s ds fd : List Char} (h : matchNumAt s = some (ds, fd)) :
    fd.length ≤ 2 := by
  simp only [matchNumAt] at h
  split at h
  · exact Option.noConfusion h
  · split at h
    · split at h
      · obtain rfl := (Prod.mk.injEq _ _ _ _ ▸ Option.some.inj h).2
        simp
      · obtain rfl := (Prod.mk.injEq _ _ _ _ ▸ Option.some.inj h).2
        exact le_trans (List.length_take_le _ _) (by norm_num)
    · obtain rfl := (Prod.mk.injEq _ _ _ _ ▸ Option.some.inj h).2
      simp

theorem findNum_fd_le : ∀ {s ds fd : List Char}, findNum s = some (ds, fd) →
    fd.length ≤ 2
  | [], _, _, h => Option.noConfusion h
  | c :: cs, ds, fd, h => by
    rw [findNum] at h
    split at h
    · next t heq =>
      obtain rfl := Option.some.inj h
      exact matchNumAt_fd_le heq
    · exact findNum_fd_le h

theorem pyPrice_shape {s : String} {v : ℚ} (h : pyPrice s = some v) :
    ∃ n : ℕ, v = (n : ℚ) / 100 ∧ 1000 < n ∧ n < 1000000000 := by
  unfold pyPrice pyPriceL at h
  split at h
  · exact Option.noConfusion h
  · next ds fd heq =>
    have hfd2 : fd.length ≤ 2 := findNum_fd_le heq
    split at h
    · next hg =>
      obtain rfl := Option.some.inj h
      obtain ⟨hg1, hg2⟩ := hg
      have hv : parseDecL ds fd =
          ((100 * parseNatL ds + parseNatL fd * 10 ^ (2 - fd.length) : ℕ) : ℚ) / 100 := by
        unfold parseDecL
        rcases fd with _ | ⟨a, _ | ⟨b, _ | ⟨c, t⟩⟩⟩
        · simp only [List.length_nil, pow_zero, Nat.sub_zero,
            show parseNatL ([] : List Char) = 0 from rfl]
          push_cast
          field_simp
        · simp only [List.length_cons, List.length_nil]
          push_cast
          field_simp
          ring
        · simp only [List.length_cons, List.length_nil]
          push_cast
          field_simp
          ring
        · simp at hfd2
      refine ⟨100 * parseNatL ds + parseNatL fd * 10 ^ (2 - fd.length), hv, ?_, ?_⟩
      · rw [hv, lt_div_iff (by norm_num : (0:ℚ) < 100)] at hg1
        have h1000 : (1000 : ℚ) <
            ((100 * parseNatL ds + parseNatL fd * 10 ^ (2 - fd.length) : ℕ) : ℚ) := by
          linarith
        exact_mod_cast h1000
      · rw [hv, div_lt_iff (by norm_num : (0:ℚ) < 100)] at hg2
        have h1e9 : ((100 * parseNatL ds + parseNatL fd * 10 ^ (2 - fd.length) : ℕ) : ℚ) <
            1000000000 := by
          linarith
        exact_mod_cast h1e9
    · exact Option.noConfusion h

theorem matchNumAt_numShape {ip fd : List Char}
    (hipd : ∀ c ∈ ip, isDigitC c = true) (hfdd : ∀ c ∈ fd, isDigitC c = true)
    (hip2 : 2 ≤ ip.length) (hip7 : ip.length ≤ 7)
    (hfd1 : 1 ≤ fd.length) (hfd2 : fd.length ≤ 2) :
    matchNumAt (ip ++ '.' :: fd) = some (ip, fd) := by
  simp only [matchNumAt]
  rw [takeWhile_append_stop (by decide : isDigitC '.' = false) fd hipd,
    if_neg (by omega), take_of_len_le hip7, List.drop_left]
  simp only [takeWhile_id hfdd, take_of_len_le hfd2]
  rw [if_neg (by
    intro hemp
    rw [List.isEmpty_iff] at hemp
    rw [hemp] at hfd1
    simp at hfd1)]

theorem pyPriceL_numShape {ip fd : List Char}
    (hipd : ∀ c ∈ ip, isDigitC c = true) (hfdd : ∀ c ∈ fd, isDigitC c = true)
    (hip2 : 2 ≤ ip.length) (hip7 : ip.length ≤ 7)
    (hfd1 : 1 ≤ fd.length) (hfd2 : fd.length ≤ 2)
    (hlo : 10 < parseDecL ip fd) (hhi : parseDecL ip fd < 10000000) :
    pyPriceL (ip ++ '.' :: fd) = some (parseDecL ip fd) := by
  have hclean : priceCleanL (ip ++ '.' :: fd) = ip ++ '.' :: fd :=
    priceCleanL_id (by
      intro c hc
      rcases List.mem_append.mp hc with hc | hc
      · exact Or.inl (hipd c hc)
      · rcases List.mem_cons.mp hc with rfl | hc
        · exact Or.inr rfl
        · exact Or.inl (hfdd c hc))
  have hmatch := matchNumAt_numShape hipd hfdd hip2 hip7 hfd1 hfd2
  obtain ⟨c, ip', rfl⟩ : ∃ c ip', ip = c :: ip' := by
    cases ip with
    | nil => simp at hip2
    | cons c ip' => exact ⟨c, ip', rfl⟩
  have hfind : findNum (c :: ip' ++ '.' :: fd) = some (c :: ip', fd) := by
    rw [List.cons_append, findNum, ← List.cons_append, hmatch]
  unfold pyPriceL
  rw [hclean, hfind]
  show (if 10 < parseDecL (c :: ip') fd ∧ parseDecL (c :: ip') fd < 10000000
    then some (parseDecL (c :: ip') fd) else none) = some (parseDecL (c :: ip') fd)
  rw [if_pos ⟨hlo, hhi⟩]

theorem ratFloor_natCast (n : ℕ) : ((n : ℚ)).floor = (n : ℤ) := by
  have h : ((n : ℚ)).floor = ⌊(n : ℚ)⌋ := rfl
  rw [h, Int.floor_natCast]

theorem parseNatL_one_digit {d : ℕ} (hd : d < 10) : parseNatL [Nat.digitChar d] = d := by
  have h := digitChar_toNat d hd
  simp [parseNatL, h]

theorem parseNatL_two_digit {d1 d2 : ℕ} (hd1 : d1 < 10) (hd2 : d2 < 10) :
    parseNatL [Nat.digitChar d1, Nat.digitChar d2] = 10 * d1 + d2 := by
  have ha := digitChar_toNat d1 hd1
  have hb := digitChar_toNat d2 hd2
  simp [parseNatL, ha, hb]

theorem pyPrice_floatStr {n : ℕ} (h1 : 1000 < n) (h2 : n < 1000000000) :
    pyPrice (pyFloatStr ((n : ℚ) / 100)) = some ((n : ℚ) / 100) := by
  have h100 : (100 : ℚ) * ((n : ℚ) / 100) = (n : ℚ) := by field_simp
  have hm : ((100 : ℚ) * ((n : ℚ) / 100)).floor = (n : ℤ) := by
    rw [h100, ratFloor_natCast]
  have hipd := ntd_digits (n / 100)
  have hip2 : 2 ≤ (natToDigits (n / 100)).length := by
    have ha : (10 : ℕ) ^ 1 ≤ n / 100 := by rw [pow_one]; omega
    exact ntd_len_ge ha
  have hip7 : (natToDigits (n / 100)).length ≤ 7 := by
    have hb : n / 100 < 10 ^ 7 := by
      rw [show (10 : ℕ) ^ 7 = 10000000 from by norm_num]
      omega
    exact ntd_len_le hb (by norm_num)
  have hlo : (10 : ℚ) < (n : ℚ) / 100 := by
    rw [lt_div_iff (by norm_num : (0:ℚ) < 100)]
    norm_num
    exact_mod_cast h1
  have hhi : (n : ℚ) / 100 < 10000000 := by
    rw [div_lt_iff (by norm_num : (0:ℚ) < 100)]
    norm_num
    exact_mod_cast h2
  simp only [pyFloatStr, hm, Int.toNat_natCast]
  by_cases hc1 : n % 100 = 0
  · rw [if_pos hc1]
    have hveq : parseDecL (natToDigits (n / 100)) ['0'] = (n : ℚ) / 100 := by
      unfold parseDecL
      rw [ntd_parse, show parseNatL ['0'] = 0 from rfl]
      have hdvd : (100 : ℕ) ∣ n := Nat.dvd_of_mod_eq_zero hc1
      rw [Nat.cast_div hdvd (by norm_num : ((100 : ℕ) : ℚ) ≠ 0)]
      push_cast
      norm_num
    show pyPriceL (natToDigits (n / 100) ++ '.' :: ['0']) = some ((n : ℚ) / 100)
    rw [pyPriceL_numShape hipd (by decide) hip2 hip7 (by norm_num) (by norm_num)
      (hveq ▸ hlo) (hveq ▸ hhi), hveq]
  · rw [if_neg hc1]
    by_cases hc2 : n % 10 = 0
    · rw [if_pos hc2]
      have hd : (n / 10) % 10 < 10 := Nat.mod_lt _ (by norm_num)
      have hveq : parseDecL (natToDigits (n / 100)) [Nat.digitChar ((n / 10) % 10)] =
          (n : ℚ) / 100 := by
        unfold parseDecL
        rw [ntd_parse, parseNatL_one_digit hd]
        have hnat : 100 * (n / 100) + 10 * ((n / 10) % 10) = n := by omega
        have hq : ((100 * (n / 100) + 10 * ((n / 10) % 10) : ℕ) : ℚ) = (n : ℚ) := by
          exact_mod_cast hnat
        push_cast at hq
        simp only [List.length_cons, List.length_nil]
        field_simp
        linarith
      show pyPriceL (natToDigits (n / 100) ++ '.' :: [Nat.digitChar ((n / 10) % 10)]) =
        some ((n : ℚ) / 100)
      rw [pyPriceL_numShape hipd (by
          intro c hc
          rw [List.mem_singleton.mp hc]
          exact digitChar_digit _ hd) hip2 hip7 (by norm_num) (by norm_num)
        (hveq ▸ hlo) (hveq ▸ hhi), hveq]
    · rw [if_neg hc2]
      have hd1 : (n / 10) % 10 < 10 := Nat.mod_lt _ (by norm_num)
      have hd2 : n % 10 < 10 := Nat.mod_lt _ (by norm_num)
      have hveq : parseDecL (natToDigits (n / 100))
          [Nat.digitChar ((n / 10) % 10), Nat.digitChar (n % 10)] = (n : ℚ) / 100 := by
        unfold parseDecL
        rw [ntd_parse, parseNatL_two_digit hd1 hd2]
        have hnat : 100 * (n / 100) + (10 * ((n / 10) % 10) + n % 10) = n := by omega
        have hq : ((100 * (n / 100) + (10 * ((n / 10) % 10) + n % 10) : ℕ) : ℚ) =
            (n : ℚ) := by exact_mod_cast hnat
        push_cast at hq
        simp only [List.length_cons, List.length_nil]
        field_simp
        linarith
      show pyPriceL (natToDigits (n / 100) ++ '.' ::
          [Nat.digitChar ((n / 10) % 10), Nat.digitChar (n % 10)]) = some ((n : ℚ) / 100)
      rw [pyPriceL_numShape hipd (by
          intro c hc
          rcases List.mem_cons.mp hc with rfl | hc
          · exact digitChar_digit _ hd1
          · rw [List.mem_singleton.mp hc]
            exact digitChar_digit _ hd2) hip2 hip7 (by norm_num) (by norm_num)
        (hveq ▸ hlo) (hveq ▸ hhi), hveq]

/-- C3 counterexample: the input `"10000000"`, whose numeric value
10,000,000 lies outside the open interval (10, 10,000,000), does not
normalize to absent: the regex `\d{2,7}` truncates the token to its
first 7 digits, and `_price` returns 1,000,000. -/
theorem c3_price_counterexample :
    pyPrice "10000000" = some 1000000 := by
  unfold pyPrice pyPriceL
  rw [show findNum (priceCleanL "10000000".toList) =
      some (['1', '0', '0', '0', '0', '0', '0'], []) from by decide]
  show (if 10 < parseDecL ['1', '0', '0', '0', '0', '0', '0'] [] ∧
      parseDecL ['1', '0', '0', '0', '0', '0', '0'] [] < 10000000
    then some (parseDecL ['1', '0', '0', '0', '0', '0', '0'] []) else none) =
    some 1000000
  rw [show parseDecL ['1', '0', '0', '0', '0', '0', '0'] [] = 1000000 from by
    unfold parseDecL
    rw [show parseNatL ['1', '0', '0', '0', '0', '0', '0'] = 1000000 from by decide,
      show parseNatL [] = 0 from rfl]
    norm_num]
  rw [if_pos (by norm_num)]

/-- C3 amended: `_price` is idempotent — whenever it yields a value `v`,
normalizing the string form of `v` (Python's `str(float)` rendering)
yields the same `v` — and every yielded value lies strictly inside
(10, 10,000,000).  The original claim's second half fails in the other
direction: a string whose numeric value is outside the interval can
still normalize to a value, because the regex truncates to 7 digits
(see the counterexample). -/
theorem c3_price_behavior :
    ∀ (s : String) (v : ℚ), pyPrice s = some v →
      10 < v ∧ v < 10000000 ∧ pyPrice (pyFloatStr v) = some v := by
  intro s v h
  obtain ⟨n, rfl, hn1, hn2⟩ := pyPrice_shape h
  refine ⟨?_, ?_, pyPrice_floatStr hn1 hn2⟩
  · rw [lt_div_iff (by norm_num : (0:ℚ) < 100)]
    norm_num
    exact_mod_cast hn1
  · rw [div_lt_iff (by norm_num : (0:ℚ) < 100)]
    norm_num
    exact_mod_cast hn2


/-- C1: refuted as stated — `analyze_url` can raise.  On the input
`"http://["` the module-level `urlparse(url)` call (line 940, outside
every `try` block) raises `ValueError` ("bad bracket in netloc"), so the
function aborts with an exception instead of returning a result
dictionary. -/
theorem c1_analyze_url_raises :
    analyzeUrl inertOracle "http://[" = Except.error PyExc.valueError := rfl

theorem pyPrice_1299 : pyPrice "\u20B91,299" = some 1299 := by
  unfold pyPrice pyPriceL
  rw [show findNum (priceCleanL "\u20B91,299".toList) =
      some (['1', '2', '9', '9'], []) from by decide]
  show (if 10 < parseDecL ['1', '2', '9', '9'] [] ∧
      parseDecL ['1', '2', '9', '9'] [] < 10000000
    then some (parseDecL ['1', '2', '9', '9'] []) else none) = some 1299
  rw [show parseDecL ['1', '2', '9', '9'] [] = 1299 from by
    unfold parseDecL
    rw [show parseNatL ['1', '2', '9', '9'] = 1299 from by decide,
        show parseNatL [] = 0 from by decide]
    norm_num]
  rw [if_pos (by norm_num)]

theorem c3_price_behavior_witness :
    10 < (1299 : ℚ) ∧ (1299 : ℚ) < 10000000 ∧
      pyPrice (pyFloatStr 1299) = some 1299 :=
  c3_price_behavior "\u20B91,299" 1299 pyPrice_1299

theorem scrapeAmazon_sdRich :
    scrapeAmazon "https://www.amazon.in/dp/X" (some sdRich) none none =
      some ⟨"Amazon", some "Widget Pro Max", some 1299,
            some "https://img.example/x.jpg", "https://www.amazon.in/dp/X",
            "In Stock", []⟩ := by
  simp only [scrapeAmazon, sdRich, Option.some_bind, parseAmazonStructured,
    firstPrice, List.filterMap_cons, pyPrice_1299, List.filterMap_nil,
    List.head?, Option.some_orElse,
    show normImg (some "//img.example/x.jpg") =
      some ("https:" ++ "//img.example/x.jpg") from by decide,
    show normalizeSpecs ([] : List (String × String)) = [] from rfl,
    Option.isNone_some, Bool.false_and, Bool.and_false, Bool.false_or,
    Option.isSome_some, Bool.true_or, if_true, if_false, Bool.or_self]
  rfl

/-- C4: every record produced by the Amazon or Flipkart scraper carries,
when present, a price strictly between 10 and 10,000,000 — every price
flows through `_price`, whose range guard enforces the bound. -/
theorem c4_price_invariant :
    (∀ (url : String) (sd : Option AmazonStruct) (api dir : Option AmazonHtml) r p,
      scrapeAmazon url sd api dir = some r → r.price = some p →
      10 < p ∧ p < 10000000) ∧
    (∀ (O : FkOracle) (fuel : ℕ) (url : String) (r : ProductRecord) (p : ℚ),
      scrapeFlipkartFuel O fuel url = some (some r) → r.price = some p →
      10 < p ∧ p < 10000000) := by
  constructor
  · intro url sd api dir r p h hp
    rcases scrapeAmazon_source h with ⟨d, hd⟩ | ⟨pg, hpg⟩
    · exact (parseAmazonStructured_fields hd).1 p hp
    · exact (amazonFromHtml_fields hpg).1 p hp
  · intro O fuel url r p h hp
    exact (scrapeFkFuel_fields O fuel url r h).1 p hp

theorem c4_price_invariant_witness : 10 < (1299 : ℚ) ∧ (1299 : ℚ) < 10000000 :=
  c4_price_invariant.1 "https://www.amazon.in/dp/X" (some sdRich) none none
    ⟨"Amazon", some "Widget Pro Max", some 1299,
     some "https://img.example/x.jpg", "https://www.amazon.in/dp/X",
     "In Stock", []⟩ 1299 scrapeAmazon_sdRich rfl

/-- C10: every image URL in a record produced by either scraper starts
with "http" (all candidates pass `_norm_img` last); `_norm_img` rewrites
a protocol-relative candidate `//…` to `https://…` and drops any
candidate that does not start with `http` after the rewrite. -/
theorem c10_image_invariant :
    (∀ (u : Option String) (s : String), normImg u = some s →
      pyStartsWith s "http" = true) ∧
    (∀ s : String, ¬ s = "" → pyStartsWith (pyStrip s) "//" = true →
      normImg (some s) = some ("https:" ++ pyStrip s)) ∧
    (∀ s : String, ¬ s = "" → pyStartsWith (pyStrip s) "//" = false →
      pyStartsWith (pyStrip s) "http" = false → normImg (some s) = none) ∧
    (∀ (url : String) (sd : Option AmazonStruct) (api dir : Option AmazonHtml) r s,
      scrapeAmazon url sd api dir = some r → r.image_url = some s →
      pyStartsWith s "http" = true) ∧
    (∀ (O : FkOracle) (fuel : ℕ) (url : String) (r : ProductRecord) (s : String),
      scrapeFlipkartFuel O fuel url = some (some r) → r.image_url = some s →
      pyStartsWith s "http" = true) := by
  refine ⟨fun u s h => normImg_starts h, fun s h1 h2 => normImg_protocol_relative h1 h2,
    ?_, ?_, ?_⟩
  · intro s h1 h2 h3
    simp only [normImg]
    rw [if_neg h1]
    have hs1 : (if pyStartsWith (pyStrip s) "//" then "https:" ++ pyStrip s
        else pyStrip s) = pyStrip s := by
      rw [h2]
      exact if_neg (by simp)
    rw [hs1, h3]
    exact if_neg (by simp)
  · intro url sd api dir r s h hs
    rcases scrapeAmazon_source h with ⟨d, hd⟩ | ⟨pg, hpg⟩
    · exact (parseAmazonStructured_fields hd).2 s hs
    · exact (amazonFromHtml_fields hpg).2 s hs
  · intro O fuel url r s h hs
    exact (scrapeFkFuel_fields O fuel url r h).2 s hs

/-- Witness for C2 at p = 1000. -/
theorem c10_image_invariant_witness :
    pyStartsWith "https://img.example/x.jpg" "http" = true :=
  c10_image_invariant.2.2.2.1 "https://www.amazon.in/dp/X" (some sdRich) none none
    ⟨"Amazon", some "Widget Pro Max", some 1299,
     some "https://img.example/x.jpg", "https://www.amazon.in/dp/X",
     "In Stock", []⟩ "https://img.example/x.jpg" scrapeAmazon_sdRich rfl

theorem c2_prediction_behavior_witness :
    (0 : ℚ) < 1000 ∧
    (buildPrediction (some 1000) 1).future_prices =
      some ⟨round2 ((1000 : ℚ) * (98/100)), round2 ((1000 : ℚ) * (95/100)),
            round2 ((1000 : ℚ) * (92/100)), round2 ((1000 : ℚ) * (90/100)),
            round2 ((1000 : ℚ) * (88/100))⟩ :=
  ⟨by norm_num, (c2_prediction_behavior 1000 1 (by norm_num)).1⟩

end EZShop
